import Mathlib

/-!
Connection pool and cached-response server of `04_Uygulamalar/src/web_server.cpp`.

A shallow embedding of the three stateful pieces of `web_server.cpp`:

* the global counters of namespace `WebServer`;
* the response cache of class `OptimizedWebServer`;
* the connection pool of class `ConnectionPooledServer`.

Conventions of the embedding.

* C++ `int` and `size_t` values are `Int` and `Nat`. The two casts `static_cast<int>(i)` and
  `static_cast<int>(connection_pool.size())` are the inclusion of `Nat` in `Int`: the class is
  instantiated with 50 connections and has the default size 100, far inside the range of `int`.
* The counters of namespace `WebServer` are `std::atomic<size_t>`. The structure `Stats`
  keeps each counter as the unreduced sum of its increments since the last reset;
  `WebServer.as_size_t` is the value the atomic holds (the sum modulo `2 ^ 64`).
* `std::vector<Connection>` is a `List Connection` indexed from `0`; `std::queue<int>` is a
  `List Int` whose head is the front of the queue (`push` appends, `pop` drops the head).
* `std::unordered_map` is an association list with at most one entry per key.
* A member function is a function from the state before the call to the state after it.
  Readings of `steady_clock::now()` and measured durations are inputs of the call.
* An out-of-range subscript of the vector is undefined behaviour in C++; the embedding
  returns `none` there, and `none` is also the result when the fuel of a recursion runs out.
-/

/-! ## Global performance counters (namespace `WebServer`) -/

namespace WebServer

/-- The five global atomic counters. -/
structure Stats where
  total_requests : Nat
  total_allocations : Nat
  total_response_time_ms : Nat
  cache_hits : Nat
  cache_misses : Nat
deriving DecidableEq, Repr

/-- The value a counter holds as `std::atomic<size_t>`. The operators `++` and `+=` of the
source add modulo `2 ^ 64`; the fields of `Stats` carry the sums unreduced, and no function
of the embedding tests a counter, so reducing after every step or once at the end gives the
same value. -/
def as_size_t (x : Nat) : Nat := x % 2 ^ 64

/-- Body of `reset_stats`: every counter is assigned `0`. -/
def reset_stats (_st : Stats) : Stats :=
  { total_requests := 0
    total_allocations := 0
    total_response_time_ms := 0
    cache_hits := 0
    cache_misses := 0 }

end WebServer

/-! ## The response cache (class `OptimizedWebServer`) -/

/-- The struct `CachedResponse`: three pointers to string literals. -/
structure CachedResponse where
  header : String
  content_type : String
  body : String
deriving DecidableEq, Repr

/-- Data members of `OptimizedWebServer` (the mutex carries no data). -/
structure OptimizedWebServer where
  response_cache : List (String × CachedResponse)
  cache_initialized : Bool
deriving DecidableEq, Repr

namespace OptimizedWebServer

def HTTP_200 : String := "HTTP/1.1 200 OK\r\n"
def HTTP_404 : String := "HTTP/1.1 404 Not Found\r\n"
def HTTP_500 : String := "HTTP/1.1 500 Internal Server Error\r\n"
def CONTENT_TYPE_HTML : String := "Content-Type: text/html\r\n"
def CONTENT_TYPE_JSON : String := "Content-Type: application/json\r\n"
def HOME_CONTENT : String := "Welcome to our optimized website!"
def ABOUT_CONTENT : String := "About our company: Excellence since 2020."
def NOT_FOUND_CONTENT : String := "Page not found."
def API_STATUS_RESPONSE : String := "Server running normally"
def API_USERS_RESPONSE : String := "Users retrieved"

/-- The call `response_cache.find(path)`: the mapped value, `none` for `end()`. -/
def find : List (String × CachedResponse) → String → Option CachedResponse
  | [], _ => none
  | (k, v) :: rest, path => if k = path then some v else find rest path

/-- The assignment `response_cache[key] = value`: overwrite the entry of `key`, or add one. -/
def assign : List (String × CachedResponse) → String → CachedResponse →
    List (String × CachedResponse)
  | [], key, value => [(key, value)]
  | (k, v) :: rest, key, value =>
    if k = key then (k, value) :: rest else (k, v) :: assign rest key value

/-- Body of `initialize_cache`: nothing when the flag is set, else the five assignments. -/
def initialize_cache (s : OptimizedWebServer) : OptimizedWebServer :=
  if s.cache_initialized then s
  else
    let c0 := s.response_cache
    let c1 := assign c0 "/" ⟨HTTP_200, CONTENT_TYPE_HTML, HOME_CONTENT⟩
    let c2 := assign c1 "/about" ⟨HTTP_200, CONTENT_TYPE_HTML, ABOUT_CONTENT⟩
    let c3 := assign c2 "/api/status" ⟨HTTP_200, CONTENT_TYPE_JSON, API_STATUS_RESPONSE⟩
    let c4 := assign c3 "/api/users" ⟨HTTP_200, CONTENT_TYPE_JSON, API_USERS_RESPONSE⟩
    let c5 := assign c4 "404" ⟨HTTP_404, CONTENT_TYPE_HTML, NOT_FOUND_CONTENT⟩
    { response_cache := c5, cache_initialized := true }

/-- The constructor `OptimizedWebServer()`: default members, then `initialize_cache()`. -/
def new : OptimizedWebServer :=
  initialize_cache { response_cache := [], cache_initialized := false }

/-- Body of `send_cached_response`. The result is the entry the call resolves to (the one
whose header, content type and body would be written) and the counters afterwards.
`fuel` bounds the depth of the recursion on the fallback key. -/
def send_cached_response (s : OptimizedWebServer) :
    Nat → String → WebServer.Stats → Option (CachedResponse × WebServer.Stats)
  | 0, _, _ => none
  | fuel + 1, path, st =>
    match find s.response_cache path with
    | some entry => some (entry, { st with cache_hits := st.cache_hits + 1 })
    | none =>
      send_cached_response s fuel "404" { st with cache_misses := st.cache_misses + 1 }

/-- Body of `handle_request`; `duration` is the measured `duration.count()`. -/
def handle_request (s : OptimizedWebServer) (fuel : Nat) (path _method : String)
    (duration : Nat) (st : WebServer.Stats) : Option WebServer.Stats :=
  let st1 := { st with total_requests := st.total_requests + 1 }
  match send_cached_response s fuel path st1 with
  | some (_, st2) =>
    some { st2 with total_response_time_ms := st2.total_response_time_ms + duration }
  | none => none

/-- A finite sequence of `handle_request` calls, each given as path, method and measured
duration, executed one after the other. -/
def handle_requests (s : OptimizedWebServer) (fuel : Nat) :
    List (String × String × Nat) → WebServer.Stats → Option WebServer.Stats
  | [], st => some st
  | (path, method, duration) :: rest, st =>
    match handle_request s fuel path method duration st with
    | some st1 => handle_requests s fuel rest st1
    | none => none

/-- Number of requests of a sequence whose path is not a key of the cache. -/
def unknown_paths (s : OptimizedWebServer) (reqs : List (String × String × Nat)) : Nat :=
  (reqs.filter (fun r => (find s.response_cache r.1).isNone)).length

/-- The vector `test_paths` of `run_load_test`. -/
def test_paths : List String := ["/", "/api/status", "/api/users", "/about", "/nonexistent"]

/-- The request of iteration `i` of the loop of `run_load_test`: the path
`test_paths[i % test_paths.size()]`, the method `GET`, and the duration measured in that
iteration. The index is below the size, so the default of `getD` is never taken. -/
def load_test_request (durations : Nat → Nat) (i : Nat) : String × String × Nat :=
  (test_paths.getD (i % test_paths.length) "", "GET", durations i)

/-- Body of `run_load_test`: `reset_stats`, then the loop `for i in 0 .. request_count` of
`handle_request` calls. The printing of the report reads the counters only. -/
def run_load_test (s : OptimizedWebServer) (fuel : Nat) (request_count : Int)
    (durations : Nat → Nat) (st : WebServer.Stats) : Option WebServer.Stats :=
  handle_requests s fuel ((List.range request_count.toNat).map (load_test_request durations))
    (WebServer.reset_stats st)

/-- A call made on an `OptimizedWebServer` object: `initialize_cache`, a lookup by
`send_cached_response`, `handle_request`, or `run_load_test`. -/
inductive Op where
  | init
  | lookup (path : String)
  | request (path method : String) (duration : Nat)
  | load_test (request_count : Int) (durations : Nat → Nat)

/-- The object and the counters after a call. Only `initialize_cache` assigns to the data
members of the object; the other three read `response_cache` through `find`. -/
def apply_op (fuel : Nat) :
    Op → OptimizedWebServer × WebServer.Stats → Option (OptimizedWebServer × WebServer.Stats)
  | Op.init, (s, st) => some (initialize_cache s, st)
  | Op.lookup path, (s, st) =>
    match send_cached_response s fuel path st with
    | some (_, st1) => some (s, st1)
    | none => none
  | Op.request path method duration, (s, st) =>
    match handle_request s fuel path method duration st with
    | some st1 => some (s, st1)
    | none => none
  | Op.load_test request_count durations, (s, st) =>
    match run_load_test s fuel request_count durations st with
    | some st1 => some (s, st1)
    | none => none

/-- A sequence of calls on the object, one after the other. -/
def apply_ops (fuel : Nat) :
    List Op → OptimizedWebServer × WebServer.Stats → Option (OptimizedWebServer × WebServer.Stats)
  | [], x => some x
  | op :: rest, x =>
    match apply_op fuel op x with
    | some y => apply_ops fuel rest y
    | none => none

end OptimizedWebServer

/-! ## The connection pool (class `ConnectionPooledServer`) -/

/-- The enum `ConnectionState`. -/
inductive ConnectionState where
  | IDLE
  | ACTIVE
  | CLOSING
  | CLOSED
deriving DecidableEq, Repr

/-- The struct `Connection`; `last_activity` is a reading of the steady clock. -/
structure Connection where
  fd : Int
  state : ConnectionState
  last_activity : Nat
deriving DecidableEq, Repr

/-- Data members of `ConnectionPooledServer` (the mutex carries no data). -/
structure ConnectionPooledServer where
  connection_pool : List Connection
  available_connections : List Int
deriving DecidableEq, Repr

/-- Error conditions named by the specification. The source declares no exception type and
contains no `throw`: no function of the embedding produces one of them. -/
inductive PoolError where
  | ConfigError
  | InvalidStateError
deriving DecidableEq, Repr

namespace ConnectionPooledServer

/-- One iteration of the constructor loop: `push_back` of connection `i`, `push` of `i`. -/
def new_step (clock : Nat → Nat) (p : ConnectionPooledServer) (i : Nat) :
    ConnectionPooledServer :=
  { connection_pool := p.connection_pool ++ [⟨(i : Int), ConnectionState.IDLE, clock i⟩]
    available_connections := p.available_connections ++ [(i : Int)] }

/-- The constructor `ConnectionPooledServer(pool_size)`: the loop `for i in 0 .. pool_size`
on the empty vector and queue. `clock i` is the reading of `now()` in iteration `i`. -/
def new (pool_size : Nat) (clock : Nat → Nat) : ConnectionPooledServer :=
  (List.range pool_size).foldl (new_step clock) { connection_pool := [], available_connections := [] }

/-- Body of `get_connection`; `now` is the reading of `steady_clock::now()`. The result is
the returned `int` and the pool afterwards; `none` stands for the undefined behaviour of
subscripting the vector out of range. -/
def get_connection (now : Nat) (p : ConnectionPooledServer) :
    Option (Int × ConnectionPooledServer) :=
  match p.available_connections with
  | conn_id :: rest =>
    if conn_id < 0 then none
    else
      match p.connection_pool[conn_id.toNat]? with
      | some c =>
        some (conn_id,
          { connection_pool :=
              p.connection_pool.set conn_id.toNat
                { c with state := ConnectionState.ACTIVE, last_activity := now }
            available_connections := rest })
      | none => none
  | [] => some (-1, p)

/-- Body of `return_connection`: inside the range guard the state is set to `IDLE` and the
id is pushed; outside it nothing happens. -/
def return_connection (p : ConnectionPooledServer) (conn_id : Int) : ConnectionPooledServer :=
  if 0 ≤ conn_id ∧ conn_id < (p.connection_pool.length : Int) then
    { connection_pool :=
        p.connection_pool.modify (fun c => { c with state := ConnectionState.IDLE })
          conn_id.toNat
      available_connections := p.available_connections ++ [conn_id] }
  else p

/-- The specification's `construct(capacity)` as the code realises it: the constructor has
no failing path, so the outcome is always a pool. -/
def construct (capacity : Nat) (clock : Nat → Nat) : Except PoolError ConnectionPooledServer :=
  Except.ok (new capacity clock)

/-- The specification's `release(id)` as the code realises it: `return_connection` is a
`void` function without a failing path, so the outcome is always a pool. -/
def release (p : ConnectionPooledServer) (id : Int) : Except PoolError ConnectionPooledServer :=
  Except.ok (return_connection p id)

/-- A call of the pool interface: `acquire` with the clock reading it observes, or
`release` with its argument. -/
inductive Call where
  | acquire (now : Nat)
  | release (id : Int)
deriving DecidableEq, Repr

/-- Execute a sequence of calls in order; `none` if some call has undefined behaviour. -/
def run : ConnectionPooledServer → List Call → Option ConnectionPooledServer
  | p, [] => some p
  | p, Call.acquire now :: rest =>
    match get_connection now p with
    | some (_, p1) => run p1 rest
    | none => none
  | p, Call.release id :: rest => run (return_connection p id) rest

/-- State of the connection with id `id`, if there is one. -/
def state_of (p : ConnectionPooledServer) (id : Int) : Option ConnectionState :=
  if id < 0 then none else (p.connection_pool[id.toNat]?).map Connection.state

/-- A sequence of calls is disciplined on `p` when every `release` in it names an id whose
connection is `ACTIVE` at the time of that call. -/
def disciplined : ConnectionPooledServer → List Call → Bool
  | _, [] => true
  | p, Call.acquire now :: rest =>
    match get_connection now p with
    | some (_, p1) => disciplined p1 rest
    | none => false
  | p, Call.release id :: rest =>
    decide (state_of p id = some ConnectionState.ACTIVE) && disciplined (return_connection p id) rest

/-- Number of connections of the pool in state `st`. -/
def count_state (p : ConnectionPooledServer) (st : ConnectionState) : Nat :=
  (p.connection_pool.filter (fun c => decide (c.state = st))).length

/-- Body of `process_with_connection`: a sleep; no data member is touched. -/
def process_with_connection (p : ConnectionPooledServer) (_conn_id : Int) :
    ConnectionPooledServer := p

/-- Body of `simulate_request`, run without another thread in between. `now` is the clock
reading inside `get_connection`, `duration` the measured `duration.count()`. -/
def simulate_request (_request_id : Int) (now duration : Nat) (p : ConnectionPooledServer)
    (st : WebServer.Stats) : Option (ConnectionPooledServer × WebServer.Stats) :=
  let st1 := { st with total_requests := st.total_requests + 1 }
  match get_connection now p with
  | some (conn_id, p1) =>
    let p2 :=
      if 0 ≤ conn_id then return_connection (process_with_connection p1 conn_id) conn_id
      else p1
    some (p2, { st1 with total_response_time_ms := st1.total_response_time_ms + duration })
  | none => none

/-! ### Worker threads of `handle_concurrent_requests`

The worker threads share the pool and the counters. Each access to them is atomic (an
atomic counter, or a section under `pool_mutex`), so an execution is an interleaving of
the atomic steps of the threads, given by a schedule that names the thread to move next. -/

/-- Position of a worker thread in the loop of its lambda and in `simulate_request`. -/
inductive Pc where
  | loop_head
  | counted
  | holding (conn_id : Int)
  | timing
deriving DecidableEq, Repr

/-- A worker thread: its loop variable `i` and its position. -/
structure Worker where
  i : Nat
  pc : Pc
deriving DecidableEq, Repr

/-- A running `handle_concurrent_requests`: the shared pool and counters, the local
`requests_per_thread`, the worker threads, and the values returned so far by the calls of
`get_connection` (a record of the execution, not a variable of the program). -/
structure Load where
  pool : ConnectionPooledServer
  stats : WebServer.Stats
  requests_per_thread : Int
  threads : List Worker
  acquired : List Int
deriving DecidableEq, Repr

/-- One entry of a schedule: the thread that moves, and the clock reading and measured
duration its step observes. -/
structure Tick where
  thread : Nat
  now : Nat
  duration : Nat
deriving DecidableEq, Repr

/-- One atomic step of a worker thread. At `loop_head` the loop test is made and, if it
holds, `simulate_request` starts with `total_requests++`; at `counted` the thread calls
`get_connection`; at `holding` it runs `process_with_connection` and `return_connection`;
at `timing` it adds the duration and increments `i`. A thread whose loop test fails has
ended and does not move. -/
def thread_step (now duration : Nat) (w : Worker) (l : Load) : Option (Worker × Load) :=
  match w.pc with
  | Pc.loop_head =>
    if (w.i : Int) < l.requests_per_thread then
      some ({ w with pc := Pc.counted },
        { l with stats := { l.stats with total_requests := l.stats.total_requests + 1 } })
    else some (w, l)
  | Pc.counted =>
    match get_connection now l.pool with
    | some (conn_id, p1) =>
      some ({ w with pc := if 0 ≤ conn_id then Pc.holding conn_id else Pc.timing },
        { l with pool := p1, acquired := l.acquired ++ [conn_id] })
    | none => none
  | Pc.holding conn_id =>
    some ({ w with pc := Pc.timing },
      { l with pool := return_connection (process_with_connection l.pool conn_id) conn_id })
  | Pc.timing =>
    some ({ i := w.i + 1, pc := Pc.loop_head },
      { l with stats :=
          { l.stats with
            total_response_time_ms := l.stats.total_response_time_ms + duration } })

/-- The step of the scheduled thread; a tick that names no thread changes nothing. -/
def step (l : Load) (tk : Tick) : Option Load :=
  match l.threads[tk.thread]? with
  | some w =>
    match thread_step tk.now tk.duration w l with
    | some (w1, l1) => some { l1 with threads := l1.threads.set tk.thread w1 }
    | none => none
  | none => some l

/-- Execute a schedule. -/
def run_schedule : Load → List Tick → Option Load
  | l, [] => some l
  | l, tk :: rest =>
    match step l tk with
    | some l1 => run_schedule l1 rest
    | none => none

/-- Every worker thread has ended, so that every `join` returns. -/
def joined (l : Load) : Bool :=
  l.threads.all (fun w => decide (w.pc = Pc.loop_head) && !decide ((w.i : Int) < l.requests_per_thread))

/-- The state in which `handle_concurrent_requests` starts its threads: the counters are
reset, `requests_per_thread` is the truncating quotient, and there is one thread at the
head of its loop for each `t` below `thread_count`. -/
def start_load (request_count thread_count : Int) (p : ConnectionPooledServer)
    (st : WebServer.Stats) : Load :=
  { pool := p
    stats := WebServer.reset_stats st
    requests_per_thread := Int.tdiv request_count thread_count
    threads := List.replicate thread_count.toNat { i := 0, pc := Pc.loop_head }
    acquired := [] }

/-- Body of `handle_concurrent_requests` under a schedule of its worker threads. The
division by a `thread_count` of zero is undefined behaviour (`none`). The call returns in
the states that are `joined`. -/
def handle_concurrent_requests (request_count thread_count : Int) (schedule : List Tick)
    (p : ConnectionPooledServer) (st : WebServer.Stats) : Option Load :=
  if thread_count = 0 then none
  else run_schedule (start_load request_count thread_count p st) schedule

/-- Number of requests a worker has started. -/
def Worker.started (w : Worker) : Nat :=
  w.i + (if w.pc = Pc.loop_head then 0 else 1)

/-- Number of `get_connection` calls a worker has made. -/
def Worker.calls_made (w : Worker) : Nat :=
  w.i + (match w.pc with
    | Pc.loop_head => 0
    | Pc.counted => 0
    | Pc.holding _ => 1
    | Pc.timing => 1)

/-- An upper bound for the number of steps a worker still makes. -/
def Worker.steps_left (rpt : Int) (w : Worker) : Nat :=
  4 * (rpt.toNat - w.i) -
    (match w.pc with
      | Pc.loop_head => 0
      | Pc.counted => 1
      | Pc.holding _ => 2
      | Pc.timing => 3)

/-- Requests of an execution that obtained a connection. -/
def served (l : Load) : Nat := (l.acquired.filter (fun r => decide (0 ≤ r))).length

/-- Requests of an execution that found the pool exhausted. -/
def dropped (l : Load) : Nat := (l.acquired.filter (fun r => decide (r < 0))).length

/-- Execute a sequence of calls and collect, in order, the values returned by the
`acquire` calls. -/
def run_trace : ConnectionPooledServer → List Call → Option (List Int × ConnectionPooledServer)
  | p, [] => some ([], p)
  | p, Call.acquire now :: rest =>
    match get_connection now p with
    | some (r, p1) =>
      match run_trace p1 rest with
      | some (rs, p2) => some (r :: rs, p2)
      | none => none
    | none => none
  | p, Call.release id :: rest => run_trace (return_connection p id) rest

end ConnectionPooledServer

/-- Every queued id indexes the vector of connections. -/
def ConnectionPooledServer.queue_in_range (p : ConnectionPooledServer) : Prop :=
  ∀ id ∈ p.available_connections, 0 ≤ id ∧ id < (p.connection_pool.length : Int)

/-- Every connection is in state `IDLE` or `ACTIVE`. -/
def ConnectionPooledServer.two_state (p : ConnectionPooledServer) : Prop :=
  ∀ c ∈ p.connection_pool, c.state = ConnectionState.IDLE ∨ c.state = ConnectionState.ACTIVE

/-- The queue holds no id twice and only ids of `IDLE` connections. -/
def ConnectionPooledServer.queue_idle (p : ConnectionPooledServer) : Prop :=
  p.available_connections.Nodup ∧
    ∀ id ∈ p.available_connections, p.state_of id = some ConnectionState.IDLE

/-- Well-formedness under disciplined use: the queue holds no id twice, its members are
exactly the ids of the `IDLE` connections, every connection is `IDLE` or `ACTIVE`, and the
queue length and the number of `ACTIVE` connections add up to the size of the pool. -/
def ConnectionPooledServer.well_formed (p : ConnectionPooledServer) : Prop :=
  p.queue_idle ∧ p.two_state ∧
    (∀ id : Int, p.state_of id = some ConnectionState.IDLE → id ∈ p.available_connections) ∧
    p.available_connections.length + p.count_state ConnectionState.ACTIVE =
      p.connection_pool.length

/-- Mutual exclusion in a running `handle_concurrent_requests`: the queue holds only ids
of `IDLE` connections, every id held by a worker belongs to an `ACTIVE` connection, and no
two workers hold the same id. -/
def ConnectionPooledServer.Load.exclusive (l : ConnectionPooledServer.Load) : Prop :=
  l.pool.queue_idle ∧
    (∀ (t : Nat) (w : ConnectionPooledServer.Worker) (c : Int),
      l.threads[t]? = some w → w.pc = ConnectionPooledServer.Pc.holding c →
        l.pool.state_of c = some ConnectionState.ACTIVE) ∧
    (∀ (t1 t2 : Nat) (w1 w2 : ConnectionPooledServer.Worker) (c : Int),
      l.threads[t1]? = some w1 → l.threads[t2]? = some w2 →
        w1.pc = ConnectionPooledServer.Pc.holding c →
        w2.pc = ConnectionPooledServer.Pc.holding c → t1 = t2)

/-- What holds of a running `handle_concurrent_requests` at every moment. -/
def ConnectionPooledServer.Load.inv (l : ConnectionPooledServer.Load) : Prop :=
  l.pool.queue_in_range ∧
    (∀ w ∈ l.threads, w.i ≤ l.requests_per_thread.toNat ∧
      (w.pc ≠ ConnectionPooledServer.Pc.loop_head → w.i < l.requests_per_thread.toNat)) ∧
    l.stats.total_requests = (l.threads.map ConnectionPooledServer.Worker.started).sum ∧
    l.acquired.length = (l.threads.map ConnectionPooledServer.Worker.calls_made).sum ∧
    l.stats.cache_hits = 0 ∧ l.stats.cache_misses = 0 ∧ l.stats.total_allocations = 0

/-- A clock that always reads `0`, for concrete runs. -/
def frozen_clock : Nat → Nat := fun _ => 0

open ConnectionPooledServer ConnectionState

/-! ## Basic facts about the pool operations -/

/-- Closed form of the constructor loop. -/
theorem new_eq (n : Nat) (clock : Nat → Nat) :
    new n clock =
      { connection_pool :=
          (List.range n).map (fun (i : Nat) => ({ fd := (i : Int), state := IDLE, last_activity := clock i } : Connection))
        available_connections := (List.range n).map (fun (i : Nat) => (i : Int)) } := by
  unfold new
  induction n with
  | zero => rfl
  | succ k ih =>
    rw [List.range_succ, List.foldl_append, ih]
    simp [new_step, List.map_append]

theorem length_new (n : Nat) (clock : Nat → Nat) : (new n clock).connection_pool.length = n := by
  simp [new_eq]

/-- On a non-empty queue whose front indexes the vector, `get_connection` is the update
of that one element. -/
theorem get_connection_cons (now : Nat) (p : ConnectionPooledServer) (id : Int)
    (rest : List Int) (c : Connection) (hq : p.available_connections = id :: rest)
    (h0 : 0 ≤ id) (hc : p.connection_pool[id.toNat]? = some c) :
    get_connection now p =
      some (id, { connection_pool :=
                    p.connection_pool.set id.toNat { c with state := ACTIVE, last_activity := now }
                  available_connections := rest }) := by
  unfold get_connection
  rw [hq]
  simp only [not_lt.mpr h0, if_false, hc]

theorem get_connection_nil (now : Nat) (p : ConnectionPooledServer)
    (hq : p.available_connections = []) : get_connection now p = some (-1, p) := by
  unfold get_connection
  rw [hq]

/-- Inside the range guard, `return_connection` is the update of that one element. -/
theorem return_connection_in_range (p : ConnectionPooledServer) (id : Int) (c : Connection)
    (h0 : 0 ≤ id) (hc : p.connection_pool[id.toNat]? = some c) :
    return_connection p id =
      { connection_pool := p.connection_pool.set id.toNat { c with state := IDLE }
        available_connections := p.available_connections ++ [id] } := by
  have hlt : id.toNat < p.connection_pool.length := by
    rcases List.getElem?_eq_some.mp hc with ⟨h, _⟩
    exact h
  have hguard : 0 ≤ id ∧ id < (p.connection_pool.length : Int) := by
    refine ⟨h0, ?_⟩
    omega
  unfold return_connection
  rw [if_pos hguard]
  congr 1
  apply List.ext_getElem?
  intro j
  rw [List.getElem?_modify, List.getElem?_set]
  by_cases hj : id.toNat = j
  · subst hj
    simp [hc, hlt]
  · simp [hj]

theorem return_connection_out_of_range (p : ConnectionPooledServer) (id : Int)
    (h : ¬ (0 ≤ id ∧ id < (p.connection_pool.length : Int))) :
    return_connection p id = p := by
  unfold return_connection
  rw [if_neg h]

theorem state_of_eq_some {p : ConnectionPooledServer} {id : Int} {st : ConnectionState}
    (h : state_of p id = some st) :
    0 ≤ id ∧ ∃ c, p.connection_pool[id.toNat]? = some c ∧ c.state = st := by
  unfold state_of at h
  by_cases hneg : id < 0
  · simp [hneg] at h
  · simp only [hneg, if_false, Option.map_eq_some'] at h
    exact ⟨not_lt.mp hneg, h⟩

theorem state_of_of_getElem? {p : ConnectionPooledServer} {id : Int} {c : Connection}
    (h0 : 0 ≤ id) (hc : p.connection_pool[id.toNat]? = some c) :
    state_of p id = some c.state := by
  unfold state_of
  simp [not_lt.mpr h0, hc]

/-! ## Invariants of arbitrary call sequences -/

theorem getElem?_of_in_range {p : ConnectionPooledServer} {id : Int}
    (h : 0 ≤ id ∧ id < (p.connection_pool.length : Int)) :
    ∃ c, p.connection_pool[id.toNat]? = some c := by
  have hlt : id.toNat < p.connection_pool.length := by omega
  exact ⟨p.connection_pool[id.toNat], List.getElem?_eq_getElem hlt⟩

theorem queue_in_range_new (n : Nat) (clock : Nat → Nat) : queue_in_range (new n clock) := by
  intro id hid
  rw [new_eq] at hid ⊢
  simp only [List.mem_map, List.mem_range] at hid
  rcases hid with ⟨i, hi, rfl⟩
  simp only [List.length_map, List.length_range]
  omega

theorem two_state_new (n : Nat) (clock : Nat → Nat) : two_state (new n clock) := by
  intro c hc
  rw [new_eq] at hc
  simp only [List.mem_map, List.mem_range] at hc
  rcases hc with ⟨i, _, rfl⟩
  exact Or.inl rfl

/-- On a pool whose queued ids index the vector, `get_connection` has defined behaviour and
keeps the vector length and the range of the queued ids. -/
theorem get_connection_defined (now : Nat) (p : ConnectionPooledServer)
    (h : queue_in_range p) :
    ∃ r p1, get_connection now p = some (r, p1) ∧ queue_in_range p1 ∧
      p1.connection_pool.length = p.connection_pool.length ∧
      (two_state p → two_state p1) := by
  cases hq : p.available_connections with
  | nil =>
    exact ⟨-1, p, get_connection_nil now p hq, h, rfl, fun h2 => h2⟩
  | cons id rest =>
    have hid := h id (by rw [hq]; exact List.mem_cons_self _ _)
    rcases getElem?_of_in_range hid with ⟨c, hc⟩
    refine ⟨id, _, get_connection_cons now p id rest c hq hid.1 hc, ?_, ?_, ?_⟩
    · intro j hj
      have := h j (by rw [hq]; exact List.mem_cons_of_mem _ hj)
      simpa [List.length_set] using this
    · simp [List.length_set]
    · intro h2 d hd
      rcases List.mem_or_eq_of_mem_set hd with hd | hd
      · exact h2 d hd
      · subst hd
        exact Or.inr rfl

/-- The call `return_connection` keeps the vector length, the range of the queued ids and
the two-state property, whatever its argument. -/
theorem return_connection_keeps (p : ConnectionPooledServer) (id : Int)
    (h : queue_in_range p) :
    queue_in_range (return_connection p id) ∧
      (return_connection p id).connection_pool.length = p.connection_pool.length ∧
      (two_state p → two_state (return_connection p id)) := by
  by_cases hg : 0 ≤ id ∧ id < (p.connection_pool.length : Int)
  · rcases getElem?_of_in_range hg with ⟨c, hc⟩
    rw [return_connection_in_range p id c hg.1 hc]
    refine ⟨?_, ?_, ?_⟩
    · intro j hj
      simp only [List.mem_append, List.mem_singleton] at hj
      simp only [List.length_set]
      rcases hj with hj | hj
      · exact h j hj
      · subst hj
        exact hg
    · simp [List.length_set]
    · intro h2 d hd
      rcases List.mem_or_eq_of_mem_set hd with hd | hd
      · exact h2 d hd
      · subst hd
        exact Or.inl rfl
  · rw [return_connection_out_of_range p id hg]
    exact ⟨h, rfl, fun h2 => h2⟩

/-- Every sequence of calls on a pool whose queued ids index the vector runs to a pool
with the same properties and the same number of connections. -/
theorem run_defined (calls : List Call) :
    ∀ p : ConnectionPooledServer, queue_in_range p → two_state p →
      ∃ p1, run p calls = some p1 ∧ queue_in_range p1 ∧ two_state p1 ∧
        p1.connection_pool.length = p.connection_pool.length := by
  induction calls with
  | nil =>
    intro p h1 h2
    exact ⟨p, rfl, h1, h2, rfl⟩
  | cons call rest ih =>
    intro p h1 h2
    cases call with
    | acquire now =>
      rcases get_connection_defined now p h1 with ⟨r, p1, hget, hr, hlen, hts⟩
      rcases ih p1 hr (hts h2) with ⟨p2, hrun, hr2, hts2, hlen2⟩
      refine ⟨p2, ?_, hr2, hts2, hlen2.trans hlen⟩
      simp only [run, hget]
      exact hrun
    | release id =>
      rcases return_connection_keeps p id h1 with ⟨hr, hlen, hts⟩
      rcases ih _ hr (hts h2) with ⟨p2, hrun, hr2, hts2, hlen2⟩
      refine ⟨p2, ?_, hr2, hts2, hlen2.trans hlen⟩
      simp only [run]
      exact hrun

/-- In a list of connections that are all `IDLE` or `ACTIVE`, the two counts add up to
the length. -/
theorem count_idle_add_active (l : List Connection)
    (h : ∀ c ∈ l, c.state = IDLE ∨ c.state = ACTIVE) :
    (l.filter (fun c => decide (c.state = IDLE))).length +
      (l.filter (fun c => decide (c.state = ACTIVE))).length = l.length := by
  induction l with
  | nil => rfl
  | cons c cs ih =>
    have ih1 := ih (fun d hd => h d (List.mem_cons_of_mem _ hd))
    rcases h c (List.mem_cons_self _ _) with hc | hc
    · simp [List.filter_cons, hc]
      omega
    · simp [List.filter_cons, hc]
      omega

theorem count_state_le (p : ConnectionPooledServer) (st : ConnectionState) :
    count_state p st ≤ p.connection_pool.length :=
  List.length_filter_le _ _

/-! ## Invariants of disciplined call sequences -/

theorem state_of_set_ne (l : List Connection) (q q1 : List Int) (i : Nat) (c : Connection)
    (j : Int) (hj : 0 ≤ j) (hne : j ≠ (i : Int)) :
    state_of { connection_pool := l.set i c, available_connections := q1 } j =
      state_of { connection_pool := l, available_connections := q } j := by
  have hne1 : i ≠ j.toNat := by omega
  unfold state_of
  simp only [not_lt.mpr hj, if_false]
  rw [List.getElem?_set_ne hne1]

theorem state_of_set_self (l : List Connection) (q1 : List Int) (i : Nat) (c : Connection)
    (hi : i < l.length) :
    state_of { connection_pool := l.set i c, available_connections := q1 } (i : Int) =
      some c.state := by
  unfold state_of
  have h0 : ¬ ((i : Int) < 0) := by omega
  simp only [h0, if_false, Int.toNat_ofNat]
  rw [List.getElem?_set_self hi]
  rfl

theorem queue_idle_new (n : Nat) (clock : Nat → Nat) : queue_idle (new n clock) := by
  constructor
  · rw [new_eq]
    exact (List.nodup_range n).map (fun a b h => by simpa using h)
  · intro id hid
    rw [new_eq] at hid ⊢
    simp only [List.mem_map, List.mem_range] at hid
    rcases hid with ⟨i, hi, rfl⟩
    unfold state_of
    have h0 : ¬ ((i : Int) < 0) := by omega
    simp only [h0, if_false, Int.toNat_ofNat, List.getElem?_map, List.getElem?_range hi]
    rfl

/-- Under `queue_idle`, `get_connection` on a non-empty queue hands out the front id, whose
connection was `IDLE`, and keeps `queue_idle`. -/
theorem get_connection_queue_idle (now : Nat) (p : ConnectionPooledServer) (id : Int)
    (rest : List Int) (h : queue_idle p) (hq : p.available_connections = id :: rest) :
    ∃ c, 0 ≤ id ∧ p.connection_pool[id.toNat]? = some c ∧ c.state = IDLE ∧
      get_connection now p =
        some (id, { connection_pool :=
                      p.connection_pool.set id.toNat { c with state := ACTIVE, last_activity := now }
                    available_connections := rest }) ∧
      queue_idle { connection_pool :=
                     p.connection_pool.set id.toNat { c with state := ACTIVE, last_activity := now }
                   available_connections := rest } := by
  rcases h with ⟨hnd, hidle⟩
  rw [hq] at hnd hidle
  rcases state_of_eq_some (hidle id (List.mem_cons_self _ _)) with ⟨h0, c, hc, hcs⟩
  rcases List.nodup_cons.mp hnd with ⟨hnotin, hnd1⟩
  refine ⟨c, h0, hc, hcs, get_connection_cons now p id rest c hq h0 hc, hnd1, ?_⟩
  intro j hj
  have hjidle := hidle j (List.mem_cons_of_mem _ hj)
  have hj0 := (state_of_eq_some hjidle).1
  have hne : j ≠ ((id.toNat : Nat) : Int) := by
    rw [Int.toNat_of_nonneg h0]
    intro e
    exact hnotin (e ▸ hj)
  rw [state_of_set_ne p.connection_pool p.available_connections rest id.toNat _ j hj0 hne]
  exact hjidle

/-- Under `queue_idle`, releasing an `ACTIVE` id keeps `queue_idle`. -/
theorem return_connection_queue_idle (p : ConnectionPooledServer) (id : Int)
    (h : queue_idle p) (hact : state_of p id = some ACTIVE) :
    queue_idle (return_connection p id) ∧
      (return_connection p id).connection_pool.length = p.connection_pool.length := by
  rcases h with ⟨hnd, hidle⟩
  rcases state_of_eq_some hact with ⟨h0, c, hc, _⟩
  have hlt : id.toNat < p.connection_pool.length := (List.getElem?_eq_some.mp hc).1
  have hnotin : id ∉ p.available_connections := by
    intro hin
    have := hidle id hin
    rw [hact] at this
    cases this
  rw [return_connection_in_range p id c h0 hc]
  refine ⟨⟨?_, ?_⟩, by simp [List.length_set]⟩
  · rw [List.nodup_append]
    refine ⟨hnd, List.nodup_singleton id, ?_⟩
    intro a ha hb
    rw [List.mem_singleton] at hb
    exact hnotin (hb ▸ ha)
  · intro j hj
    simp only [List.mem_append, List.mem_singleton] at hj
    by_cases hji : j = id
    · subst hji
      have := state_of_set_self p.connection_pool (p.available_connections ++ [j]) j.toNat
        { c with state := IDLE } hlt
      rw [Int.toNat_of_nonneg h0] at this
      exact this
    · have hjin : j ∈ p.available_connections := by
        rcases hj with hj | hj
        · exact hj
        · exact absurd hj hji
      have hjidle := hidle j hjin
      have hj0 := (state_of_eq_some hjidle).1
      have hne : j ≠ ((id.toNat : Nat) : Int) := by
        rw [Int.toNat_of_nonneg h0]
        exact hji
      rw [state_of_set_ne p.connection_pool p.available_connections _ id.toNat _ j hj0 hne]
      exact hjidle

/-- A disciplined sequence of calls on a pool with `queue_idle` runs to a pool with
`queue_idle` and the same number of connections. -/
theorem run_disciplined (calls : List Call) :
    ∀ p : ConnectionPooledServer, queue_idle p → disciplined p calls = true →
      ∃ p1, run p calls = some p1 ∧ queue_idle p1 ∧
        p1.connection_pool.length = p.connection_pool.length := by
  induction calls with
  | nil =>
    intro p h _
    exact ⟨p, rfl, h, rfl⟩
  | cons call rest ih =>
    intro p h hd
    cases call with
    | acquire now =>
      cases hq : p.available_connections with
      | nil =>
        have hget := get_connection_nil now p hq
        simp only [disciplined, hget] at hd
        rcases ih p h hd with ⟨p2, hrun, h2, hlen⟩
        refine ⟨p2, ?_, h2, hlen⟩
        simp only [run, hget]
        exact hrun
      | cons id tl =>
        rcases get_connection_queue_idle now p id tl h hq with ⟨c, _, _, _, hget, h1⟩
        simp only [disciplined, hget] at hd
        rcases ih _ h1 hd with ⟨p2, hrun, h2, hlen⟩
        refine ⟨p2, ?_, h2, ?_⟩
        · simp only [run, hget]
          exact hrun
        · rw [hlen]
          simp [List.length_set]
    | release id =>
      simp only [disciplined, Bool.and_eq_true, decide_eq_true_eq] at hd
      rcases return_connection_queue_idle p id h hd.1 with ⟨h1, hlen1⟩
      rcases ih _ h1 hd.2 with ⟨p2, hrun, h2, hlen⟩
      refine ⟨p2, ?_, h2, hlen.trans hlen1⟩
      simp only [run]
      exact hrun

/-! ## Counters of the cached-response server -/

namespace OptimizedWebServer

theorem find_new_fallback :
    find new.response_cache "404" = some ⟨HTTP_404, CONTENT_TYPE_HTML, NOT_FOUND_CONTENT⟩ := by
  decide

/-- A path that is a key: one lookup, one hit. -/
theorem send_cached_response_known (s : OptimizedWebServer) (fuel : Nat) (path : String)
    (st : WebServer.Stats) (entry : CachedResponse)
    (h : find s.response_cache path = some entry) :
    send_cached_response s (fuel + 1) path st =
      some (entry, { st with cache_hits := st.cache_hits + 1 }) := by
  simp only [send_cached_response, h]

/-- A path that is no key, in a cache with the key "404": a miss, then a hit on the
fallback entry. -/
theorem send_cached_response_unknown (s : OptimizedWebServer) (fuel : Nat) (path : String)
    (st : WebServer.Stats) (fallback : CachedResponse)
    (h404 : find s.response_cache "404" = some fallback)
    (h : find s.response_cache path = none) :
    send_cached_response s (fuel + 2) path st =
      some (fallback, { st with cache_misses := st.cache_misses + 1,
                                cache_hits := st.cache_hits + 1 }) := by
  simp only [send_cached_response, h, h404]

/-- Counters after a sequence of requests on a cache with the key "404", from any
starting values. -/
theorem handle_requests_counters (s : OptimizedWebServer) (fallback : CachedResponse)
    (h404 : find s.response_cache "404" = some fallback) (fuel : Nat)
    (reqs : List (String × String × Nat)) :
    ∀ st : WebServer.Stats, ∃ st1, handle_requests s (fuel + 2) reqs st = some st1 ∧
      st1.total_requests = st.total_requests + reqs.length ∧
      st1.cache_hits = st.cache_hits + reqs.length ∧
      st1.cache_misses = st.cache_misses + unknown_paths s reqs := by
  induction reqs with
  | nil =>
    intro st
    exact ⟨st, rfl, rfl, rfl, rfl⟩
  | cons req rest ih =>
    intro st
    rcases req with ⟨path, method, duration⟩
    cases hfind : find s.response_cache path with
    | some entry =>
      have hreq : handle_request s (fuel + 2) path method duration st =
          some { st with total_requests := st.total_requests + 1,
                         cache_hits := st.cache_hits + 1,
                         total_response_time_ms := st.total_response_time_ms + duration } := by
        simp only [handle_request, send_cached_response_known s (fuel + 1) path _ entry hfind]
      rcases ih { st with total_requests := st.total_requests + 1,
                          cache_hits := st.cache_hits + 1,
                          total_response_time_ms := st.total_response_time_ms + duration }
        with ⟨st1, hrun, ht, hh, hm⟩
      refine ⟨st1, ?_, ?_, ?_, ?_⟩
      · simp only [handle_requests, hreq]
        exact hrun
      · rw [ht]
        simp only [List.length_cons]
        omega
      · rw [hh]
        simp only [List.length_cons]
        omega
      · rw [hm]
        simp [unknown_paths, List.filter_cons, hfind]
    | none =>
      have hreq : handle_request s (fuel + 2) path method duration st =
          some { st with total_requests := st.total_requests + 1,
                         cache_misses := st.cache_misses + 1,
                         cache_hits := st.cache_hits + 1,
                         total_response_time_ms := st.total_response_time_ms + duration } := by
        simp only [handle_request, send_cached_response_unknown s fuel path _ fallback h404 hfind]
      rcases ih { st with total_requests := st.total_requests + 1,
                          cache_misses := st.cache_misses + 1,
                          cache_hits := st.cache_hits + 1,
                          total_response_time_ms := st.total_response_time_ms + duration }
        with ⟨st1, hrun, ht, hh, hm⟩
      refine ⟨st1, ?_, ?_, ?_, ?_⟩
      · simp only [handle_requests, hreq]
        exact hrun
      · rw [ht]
        simp only [List.length_cons]
        omega
      · rw [hh]
        simp only [List.length_cons]
        omega
      · rw [hm]
        simp [unknown_paths, List.filter_cons, hfind]
        omega

end OptimizedWebServer

/-! ## The claims about the connection pool -/

/-- C1 (counterexample): on the pool of capacity 1 the only connection is `IDLE`, yet
`release(0)` does not fail with `InvalidStateError`: it returns normally and the pool has
changed, the id `0` now being queued twice. -/
theorem release_of_idle_counterexample :
    state_of (new 1 frozen_clock) 0 = some IDLE ∧
      release (new 1 frozen_clock) 0 ≠ Except.error PoolError.InvalidStateError ∧
      release (new 1 frozen_clock) 0 =
        Except.ok { connection_pool := [⟨0, IDLE, 0⟩], available_connections := [0, 0] } ∧
      new 1 frozen_clock = { connection_pool := [⟨0, IDLE, 0⟩], available_connections := [0] } := by
  refine ⟨by decide, ?_, ?_, by decide⟩
  · intro h
    cases h
  · have h : return_connection (new 1 frozen_clock) 0 =
        { connection_pool := [⟨0, IDLE, 0⟩], available_connections := [0, 0] } := by decide
    simp only [release, h]

/-- C1 (amended): releasing an id whose connection is in a state other than `ACTIVE` is not
reported. For every pool state and every such id, `release(id)` returns normally, the
connection is `IDLE` afterwards and the id has been appended to the availability queue
once more, so the pool has changed. -/
theorem release_of_non_active_not_reported (p : ConnectionPooledServer) (id : Int)
    (st : ConnectionState) (hst : state_of p id = some st) (_hne : st ≠ ACTIVE) :
    ∃ p1, release p id = Except.ok p1 ∧ state_of p1 id = some IDLE ∧
      p1.available_connections = p.available_connections ++ [id] ∧ p1 ≠ p := by
  rcases state_of_eq_some hst with ⟨h0, c, hc, _⟩
  have hlt : id.toNat < p.connection_pool.length := (List.getElem?_eq_some.mp hc).1
  refine ⟨return_connection p id, rfl, ?_, ?_, ?_⟩
  · rw [return_connection_in_range p id c h0 hc]
    have := state_of_set_self p.connection_pool (p.available_connections ++ [id]) id.toNat
      { c with state := IDLE } hlt
    rw [Int.toNat_of_nonneg h0] at this
    exact this
  · rw [return_connection_in_range p id c h0 hc]
  · rw [return_connection_in_range p id c h0 hc]
    intro h
    have hlen := congrArg (fun q => q.available_connections.length) h
    simp at hlen

theorem release_of_non_active_not_reported_witness :
    state_of (new 1 frozen_clock) 0 = some IDLE ∧ IDLE ≠ ACTIVE ∧
      ∃ p1, release (new 1 frozen_clock) 0 = Except.ok p1 ∧ state_of p1 0 = some IDLE ∧
        p1.available_connections = (new 1 frozen_clock).available_connections ++ [0] ∧
        p1 ≠ new 1 frozen_clock :=
  ⟨by decide, by decide,
    release_of_non_active_not_reported (new 1 frozen_clock) 0 IDLE (by decide) (by decide)⟩

/-- C2 (counterexample): `construct(0)` does not raise `ConfigError`. It yields the empty
pool, and the first `acquire` on that pool reports exhaustion. -/
theorem construct_zero_counterexample :
    construct 0 frozen_clock ≠ Except.error PoolError.ConfigError ∧
      construct 0 frozen_clock =
        Except.ok { connection_pool := [], available_connections := [] } ∧
      get_connection 0 { connection_pool := [], available_connections := [] } =
        some (-1, { connection_pool := [], available_connections := [] }) := by
  refine ⟨?_, rfl, rfl⟩
  intro h
  cases h

/-- C2 (amended): constructing the pool with capacity 0 does not fail. For every clock,
`construct(0)` yields the pool with no connection and an empty availability queue, and
every `acquire` on it returns `-1` and leaves it as it is. -/
theorem construct_zero_yields_empty_pool (clock : Nat → Nat) (now : Nat) :
    construct 0 clock = Except.ok { connection_pool := [], available_connections := [] } ∧
      get_connection now { connection_pool := [], available_connections := [] } =
        some (-1, { connection_pool := [], available_connections := [] }) :=
  ⟨rfl, rfl⟩

/-- C3: for every capacity `n` and every sequence of `acquire` and `release` calls with any
arguments on the pool constructed with capacity `n`, after every call (after every prefix
of the sequence) the run is defined, the number of `ACTIVE` connections is at most `n`, and
the numbers of `IDLE` and of `ACTIVE` connections add up to `n`. -/
theorem active_and_idle_counts (n : Nat) (clock : Nat → Nat) (calls : List Call) (k : Nat) :
    ∃ p, run (new n clock) (calls.take k) = some p ∧
      count_state p ACTIVE ≤ n ∧ count_state p IDLE + count_state p ACTIVE = n := by
  rcases run_defined (calls.take k) (new n clock) (queue_in_range_new n clock)
    (two_state_new n clock) with ⟨p, hrun, _, hts, hlen⟩
  rw [length_new] at hlen
  refine ⟨p, hrun, ?_, ?_⟩
  · rw [← hlen]
    exact count_state_le p ACTIVE
  · rw [← hlen]
    exact count_idle_add_active p.connection_pool hts

/-- C4 (counterexample): on the fresh pool of capacity 2, `release(0)` followed by
`acquire` leaves the id `0` in the availability queue while connection `0` is `ACTIVE`. -/
theorem queue_holds_active_id_counterexample :
    ∃ p, run (new 2 frozen_clock) [Call.release 0, Call.acquire 5] = some p ∧
      p = { connection_pool := [⟨0, ACTIVE, 5⟩, ⟨1, IDLE, 0⟩], available_connections := [1, 0] } ∧
      (0 : Int) ∈ p.available_connections ∧ state_of p 0 = some ACTIVE ∧
      state_of p 0 ≠ some IDLE :=
  ⟨{ connection_pool := [⟨0, ACTIVE, 5⟩, ⟨1, IDLE, 0⟩], available_connections := [1, 0] },
    by decide, rfl, by decide, by decide, by decide⟩

/-- C4 (amended): for every sequence of `acquire` and `release` calls on a freshly
constructed pool in which every `release` names an id that is `ACTIVE` at the time, the run
is defined and the availability queue holds only ids of connections in state `IDLE`. -/
theorem queue_holds_only_idle_ids (n : Nat) (clock : Nat → Nat) (calls : List Call)
    (hd : disciplined (new n clock) calls = true) :
    ∃ p, run (new n clock) calls = some p ∧
      ∀ id ∈ p.available_connections, state_of p id = some IDLE := by
  rcases run_disciplined calls (new n clock) (queue_idle_new n clock) hd with ⟨p, hrun, hqi, _⟩
  exact ⟨p, hrun, hqi.2⟩

theorem queue_holds_only_idle_ids_witness :
    disciplined (new 2 frozen_clock) [Call.acquire 5, Call.release 0, Call.acquire 6] = true ∧
      ∃ p, run (new 2 frozen_clock) [Call.acquire 5, Call.release 0, Call.acquire 6] = some p ∧
        ∀ id ∈ p.available_connections, state_of p id = some IDLE :=
  ⟨by decide, queue_holds_only_idle_ids 2 frozen_clock
    [Call.acquire 5, Call.release 0, Call.acquire 6] (by decide)⟩

/-- C5: for every pool state whose availability queue is non-empty, with the id at its
front indexing the vector, `get_connection` returns that id, the queue afterwards is the
rest of the old queue, that connection has state `ACTIVE` and `last_activity` equal to the
clock reading (its `fd` is kept), and every other connection is unchanged. -/
theorem get_connection_hands_out_front (now : Nat) (p : ConnectionPooledServer) (id : Int)
    (rest : List Int) (hq : p.available_connections = id :: rest)
    (hid : 0 ≤ id ∧ id < (p.connection_pool.length : Int)) :
    ∃ c p1, p.connection_pool[id.toNat]? = some c ∧
      get_connection now p = some (id, p1) ∧
      p1.available_connections = rest ∧
      p1.connection_pool[id.toNat]? = some { c with state := ACTIVE, last_activity := now } ∧
      p1.connection_pool.length = p.connection_pool.length ∧
      ∀ j, j ≠ id.toNat → p1.connection_pool[j]? = p.connection_pool[j]? := by
  rcases getElem?_of_in_range hid with ⟨c, hc⟩
  have hlt : id.toNat < p.connection_pool.length := (List.getElem?_eq_some.mp hc).1
  refine ⟨c, _, hc, get_connection_cons now p id rest c hq hid.1 hc, rfl, ?_, ?_, ?_⟩
  · exact List.getElem?_set_self hlt
  · simp [List.length_set]
  · intro j hj
    exact List.getElem?_set_ne (Ne.symm hj)

theorem get_connection_hands_out_front_witness :
    (new 2 frozen_clock).available_connections = 0 :: [1] ∧
      ((0 : Int) ≤ 0 ∧ (0 : Int) < ((new 2 frozen_clock).connection_pool.length : Int)) ∧
      ∃ c p1, (new 2 frozen_clock).connection_pool[(0 : Int).toNat]? = some c ∧
        get_connection 7 (new 2 frozen_clock) = some (0, p1) ∧
        p1.available_connections = [1] ∧
        p1.connection_pool[(0 : Int).toNat]? =
          some { c with state := ACTIVE, last_activity := 7 } ∧
        p1.connection_pool.length = (new 2 frozen_clock).connection_pool.length ∧
        ∀ j, j ≠ (0 : Int).toNat →
          p1.connection_pool[j]? = (new 2 frozen_clock).connection_pool[j]? :=
  ⟨by decide, by decide,
    get_connection_hands_out_front 7 (new 2 frozen_clock) 0 [1] (by decide) (by decide)⟩

/-- C6: for every pool state whose availability queue is empty, `get_connection` returns
`-1`, which is the id of no connection, and leaves the queue and every connection (state and
`last_activity` included) unchanged. The call is a total function: it does not wait. -/
theorem get_connection_reports_exhaustion (now : Nat) (p : ConnectionPooledServer)
    (hq : p.available_connections = []) :
    get_connection now p = some (-1, p) ∧ state_of p (-1) = none :=
  ⟨get_connection_nil now p hq, by simp [state_of]⟩

theorem get_connection_reports_exhaustion_witness :
    (new 0 frozen_clock).available_connections = [] ∧
      get_connection 3 (new 0 frozen_clock) = some (-1, new 0 frozen_clock) ∧
      state_of (new 0 frozen_clock) (-1) = none :=
  ⟨by decide, get_connection_reports_exhaustion 3 (new 0 frozen_clock) (by decide)⟩

/-- C7: for every pool state and every id whose connection is `ACTIVE`, `return_connection`
appends the id to the back of the availability queue and sets that connection to `IDLE`,
keeping its `fd` and `last_activity`; every other connection and the earlier queue contents
are unchanged. -/
theorem return_connection_releases_active (p : ConnectionPooledServer) (id : Int)
    (hact : state_of p id = some ACTIVE) :
    ∃ c, p.connection_pool[id.toNat]? = some c ∧
      (return_connection p id).available_connections = p.available_connections ++ [id] ∧
      (return_connection p id).connection_pool[id.toNat]? = some { c with state := IDLE } ∧
      (return_connection p id).connection_pool.length = p.connection_pool.length ∧
      ∀ j, j ≠ id.toNat →
        (return_connection p id).connection_pool[j]? = p.connection_pool[j]? := by
  rcases state_of_eq_some hact with ⟨h0, c, hc, _⟩
  have hlt : id.toNat < p.connection_pool.length := (List.getElem?_eq_some.mp hc).1
  rw [return_connection_in_range p id c h0 hc]
  refine ⟨c, hc, rfl, ?_, ?_, ?_⟩
  · exact List.getElem?_set_self hlt
  · simp [List.length_set]
  · intro j hj
    exact List.getElem?_set_ne (Ne.symm hj)

theorem return_connection_releases_active_witness :
    state_of { connection_pool := [⟨0, ACTIVE, 5⟩, ⟨1, IDLE, 0⟩], available_connections := [1] } 0 =
        some ACTIVE ∧
      ∃ c, [(⟨0, ACTIVE, 5⟩ : Connection), ⟨1, IDLE, 0⟩][(0 : Int).toNat]? = some c ∧
        (return_connection
          { connection_pool := [⟨0, ACTIVE, 5⟩, ⟨1, IDLE, 0⟩], available_connections := [1] }
          0).available_connections = [1] ++ [0] ∧
        (return_connection
          { connection_pool := [⟨0, ACTIVE, 5⟩, ⟨1, IDLE, 0⟩], available_connections := [1] }
          0).connection_pool[(0 : Int).toNat]? = some { c with state := IDLE } ∧
        (return_connection
          { connection_pool := [⟨0, ACTIVE, 5⟩, ⟨1, IDLE, 0⟩], available_connections := [1] }
          0).connection_pool.length = [(⟨0, ACTIVE, 5⟩ : Connection), ⟨1, IDLE, 0⟩].length ∧
        ∀ j, j ≠ (0 : Int).toNat →
          (return_connection
            { connection_pool := [⟨0, ACTIVE, 5⟩, ⟨1, IDLE, 0⟩], available_connections := [1] }
            0).connection_pool[j]? = [(⟨0, ACTIVE, 5⟩ : Connection), ⟨1, IDLE, 0⟩][j]? :=
  ⟨by decide,
    return_connection_releases_active
      { connection_pool := [⟨0, ACTIVE, 5⟩, ⟨1, IDLE, 0⟩], available_connections := [1] } 0
      (by decide)⟩

/-- C8: for every capacity `n` (in particular every `n >= 1`) the constructor cannot fail
and yields a pool of exactly `n` connections, the connection at index `i` having `fd` equal
to `i` and state `IDLE` for every `i < n`, with the availability queue holding exactly the
ids `0, 1, ..., n-1` in that order. -/
theorem construct_yields_idle_pool (n : Nat) (clock : Nat → Nat) :
    construct n clock = Except.ok (new n clock) ∧
      (new n clock).connection_pool.length = n ∧
      (∀ i, i < n → ∃ c, (new n clock).connection_pool[i]? = some c ∧
        c.fd = (i : Int) ∧ c.state = IDLE) ∧
      (new n clock).available_connections = (List.range n).map (fun (i : Nat) => (i : Int)) := by
  refine ⟨rfl, length_new n clock, ?_, ?_⟩
  · intro i hi
    refine ⟨⟨(i : Int), IDLE, clock i⟩, ?_, rfl, rfl⟩
    rw [new_eq]
    simp only [List.getElem?_map, List.getElem?_range hi]
    rfl
  · rw [new_eq]

/-- C9: in every pool state reached from construction by `acquire` calls and by `release`
calls on ids that are `ACTIVE` at the time, and whose queue is non-empty, `acquire` returns
an id, the `release` of that id right afterwards succeeds, every connection then has the
state it had before the pair, and the id occurs exactly once in the availability queue. -/
theorem acquire_then_release_restores (n : Nat) (clock : Nat → Nat) (calls : List Call)
    (p : ConnectionPooledServer) (now : Nat)
    (hd : disciplined (new n clock) calls = true)
    (hrun : run (new n clock) calls = some p)
    (hq : p.available_connections ≠ []) :
    ∃ id p1 p2, get_connection now p = some (id, p1) ∧ state_of p1 id = some ACTIVE ∧
      release p1 id = Except.ok p2 ∧
      p2.connection_pool.map Connection.state = p.connection_pool.map Connection.state ∧
      p2.available_connections.count id = 1 := by
  rcases run_disciplined calls (new n clock) (queue_idle_new n clock) hd with ⟨p0, hrun0, hqi, _⟩
  rw [hrun] at hrun0
  cases hrun0
  cases hqueue : p.available_connections with
  | nil => exact absurd hqueue hq
  | cons id rest =>
    rcases get_connection_queue_idle now p id rest hqi hqueue with ⟨c, h0, hc, hcs, hget, _⟩
    have hlt : id.toNat < p.connection_pool.length := (List.getElem?_eq_some.mp hc).1
    have hnotin : id ∉ rest := by
      have hnd := hqi.1
      rw [hqueue] at hnd
      exact (List.nodup_cons.mp hnd).1
    have hc1 : (p.connection_pool.set id.toNat
        { c with state := ACTIVE, last_activity := now })[id.toNat]? =
        some { c with state := ACTIVE, last_activity := now } :=
      List.getElem?_set_self hlt
    refine ⟨id, _, _, hget, ?_, rfl, ?_, ?_⟩
    · have := state_of_set_self p.connection_pool rest id.toNat
        { c with state := ACTIVE, last_activity := now } hlt
      rw [Int.toNat_of_nonneg h0] at this
      exact this
    · rw [return_connection_in_range _ id _ h0 hc1]
      simp only [List.set_set, List.map_set]
      apply List.ext_getElem?
      intro j
      rw [List.getElem?_set]
      by_cases hj : id.toNat = j
      · subst hj
        have hce : p.connection_pool[id.toNat] = c := by
          rw [List.getElem?_eq_getElem hlt] at hc
          exact Option.some.inj hc
        simp [hlt, hce, hcs]
      · simp [hj]
    · rw [return_connection_in_range _ id _ h0 hc1]
      simp only [List.count_append, List.count_eq_zero_of_not_mem hnotin, List.count_singleton]
      simp

theorem acquire_then_release_restores_witness :
    disciplined (new 2 frozen_clock) [Call.acquire 5, Call.release 0] = true ∧
      run (new 2 frozen_clock) [Call.acquire 5, Call.release 0] =
        some { connection_pool := [⟨0, IDLE, 5⟩, ⟨1, IDLE, 0⟩], available_connections := [1, 0] } ∧
      ({ connection_pool := [⟨0, IDLE, 5⟩, ⟨1, IDLE, 0⟩], available_connections := [1, 0] } :
        ConnectionPooledServer).available_connections ≠ [] ∧
      ∃ id p1 p2,
        get_connection 9
          { connection_pool := [⟨0, IDLE, 5⟩, ⟨1, IDLE, 0⟩], available_connections := [1, 0] } =
          some (id, p1) ∧
        state_of p1 id = some ACTIVE ∧ release p1 id = Except.ok p2 ∧
        p2.connection_pool.map Connection.state =
          [(⟨0, IDLE, 5⟩ : Connection), ⟨1, IDLE, 0⟩].map Connection.state ∧
        p2.available_connections.count id = 1 :=
  ⟨by decide, by decide, by decide,
    acquire_then_release_restores 2 frozen_clock [Call.acquire 5, Call.release 0]
      { connection_pool := [⟨0, IDLE, 5⟩, ⟨1, IDLE, 0⟩], available_connections := [1, 0] } 9
      (by decide) (by decide) (by decide)⟩

/-! ## The claims about the cached-response server -/

/-- C10 (failing input): after `reset_stats` and one `handle_request` with the unknown path
`/nonexistent`, `total_requests` is 1 while `cache_hits` and `cache_misses` are both 1: the
one request is counted as a miss and, through the recursion on the fallback key, as a hit
as well, so `cache_hits + cache_misses` is 2 and differs from `total_requests`. -/
theorem hits_plus_misses_counterexample :
    ∃ st, OptimizedWebServer.handle_requests OptimizedWebServer.new 2
        [("/nonexistent", "GET", 0)] (WebServer.reset_stats ⟨7, 7, 7, 7, 7⟩) = some st ∧
      st = { total_requests := 1, total_allocations := 0, total_response_time_ms := 0,
             cache_hits := 1, cache_misses := 1 } ∧
      st.cache_hits + st.cache_misses ≠ st.total_requests :=
  ⟨{ total_requests := 1, total_allocations := 0, total_response_time_ms := 0,
     cache_hits := 1, cache_misses := 1 }, by decide, rfl, by decide⟩

/-! ## Worker threads: invariants of every interleaving -/

/-- Replacing one element of a list changes the sum of a function over it by the
difference at that element. -/
theorem sum_map_set (f : Worker → Nat) (ws : List Worker) (t : Nat) (w w1 : Worker)
    (hw : ws[t]? = some w) :
    ((ws.set t w1).map f).sum + f w = (ws.map f).sum + f w1 := by
  induction ws generalizing t with
  | nil => simp at hw
  | cons x xs ih =>
    cases t with
    | zero =>
      simp only [List.getElem?_cons_zero, Option.some.injEq] at hw
      subst hw
      simp only [List.set_cons_zero, List.map_cons, List.sum_cons]
      omega
    | succ k =>
      simp only [List.getElem?_cons_succ] at hw
      have := ih k hw
      simp only [List.set_cons_succ, List.map_cons, List.sum_cons]
      omega

/-- Sum of the step bounds of the workers. -/
theorem steps_left_sum_set (rpt : Int) (ws : List Worker) (t : Nat) (w w1 : Worker)
    (hw : ws[t]? = some w) (hlt : Worker.steps_left rpt w1 < Worker.steps_left rpt w) :
    ((ws.set t w1).map (Worker.steps_left rpt)).sum < (ws.map (Worker.steps_left rpt)).sum := by
  have := sum_map_set (Worker.steps_left rpt) ws t w w1 hw
  omega

/-- The invariant after one worker, the pool, the counters and the record have changed. -/
theorem inv_update (l : Load) (t : Nat) (w w1 : Worker) (p1 : ConnectionPooledServer)
    (st1 : WebServer.Stats) (a1 : List Int) (h : l.inv) (hw : l.threads[t]? = some w)
    (hq : queue_in_range p1)
    (hi : w1.i ≤ l.requests_per_thread.toNat ∧
      (w1.pc ≠ Pc.loop_head → w1.i < l.requests_per_thread.toNat))
    (htot : st1.total_requests + w.started = l.stats.total_requests + w1.started)
    (hacq : a1.length + w.calls_made = l.acquired.length + w1.calls_made)
    (hh : st1.cache_hits = 0) (hm : st1.cache_misses = 0) (ha : st1.total_allocations = 0) :
    Load.inv { pool := p1, stats := st1, requests_per_thread := l.requests_per_thread,
               threads := l.threads.set t w1, acquired := a1 } := by
  rcases h with ⟨_, hws, htot0, hacq0, _, _, _⟩
  refine ⟨hq, ?_, ?_, ?_, hh, hm, ha⟩
  · intro x hx
    rcases List.mem_or_eq_of_mem_set hx with hx | hx
    · exact hws x hx
    · subst hx
      exact hi
  · have := sum_map_set Worker.started l.threads t w w1 hw
    show st1.total_requests = ((l.threads.set t w1).map Worker.started).sum
    omega
  · have := sum_map_set Worker.calls_made l.threads t w w1 hw
    show a1.length = ((l.threads.set t w1).map Worker.calls_made).sum
    omega

/-- Every step of every thread is defined and keeps the invariant; the step of a thread
that has not ended lowers the sum of the step bounds. -/
theorem step_spec (l : Load) (tk : Tick) (h : l.inv) :
    ∃ l1, step l tk = some l1 ∧ l1.inv ∧
      l1.requests_per_thread = l.requests_per_thread ∧
      l1.threads.length = l.threads.length ∧
      (∀ w, l.threads[tk.thread]? = some w → 0 < Worker.steps_left l.requests_per_thread w →
        (l1.threads.map (Worker.steps_left l.requests_per_thread)).sum <
          (l.threads.map (Worker.steps_left l.requests_per_thread)).sum) := by
  have h0 := h
  rcases h with ⟨hq, hws, _, _, hh, hm, ha⟩
  cases hw : l.threads[tk.thread]? with
  | none =>
    refine ⟨l, ?_, h0, rfl, rfl, ?_⟩
    · simp only [step, hw]
    · intro w hw1
      cases hw1
  | some w =>
    have hwmem : w ∈ l.threads := List.getElem?_mem hw
    have hwi := hws w hwmem
    rcases w with ⟨i, pc⟩
    cases pc with
    | loop_head =>
      by_cases htest : (i : Int) < l.requests_per_thread
      · refine ⟨_, ?_, inv_update l tk.thread ⟨i, Pc.loop_head⟩ ⟨i, Pc.counted⟩ l.pool
          { l.stats with total_requests := l.stats.total_requests + 1 } l.acquired h0 hw hq
          ?_ ?_ ?_ hh hm ha, rfl, ?_, ?_⟩
        · simp only [step, hw, thread_step, htest, if_true]
        · refine ⟨hwi.1, fun _ => ?_⟩
          show i < l.requests_per_thread.toNat
          omega
        · simp [Worker.started]
          omega
        · simp [Worker.calls_made]
        · simp [List.length_set]
        · intro w1 hw1 _
          cases hw1
          apply steps_left_sum_set _ _ _ _ _ hw
          simp only [Worker.steps_left]
          have : i < l.requests_per_thread.toNat := by omega
          omega
      · refine ⟨{ l with threads := l.threads.set tk.thread ⟨i, Pc.loop_head⟩ }, ?_, ?_, rfl, ?_, ?_⟩
        · simp only [step, hw, thread_step, htest, if_false]
        · have hset : l.threads.set tk.thread ⟨i, Pc.loop_head⟩ = l.threads := by
            apply List.ext_getElem?
            intro j
            rw [List.getElem?_set]
            by_cases hj : tk.thread = j
            · subst hj
              simp [hw, (List.getElem?_eq_some.mp hw).1]
            · simp [hj]
          rw [hset]
          exact h0
        · simp [List.length_set]
        · intro w1 hw1 hpos
          cases hw1
          simp only [Worker.steps_left] at hpos
          omega
    | counted =>
      have hlt := hwi.2 (by simp)
      rcases get_connection_defined tk.now l.pool hq with ⟨r, p1, hget, hq1, _, _⟩
      refine ⟨_, ?_, inv_update l tk.thread ⟨i, Pc.counted⟩
          ⟨i, if 0 ≤ r then Pc.holding r else Pc.timing⟩ p1 l.stats (l.acquired ++ [r]) h0 hw hq1
          ?_ ?_ ?_ hh hm ha, rfl, ?_, ?_⟩
      · simp only [step, hw, thread_step, hget]
      · exact ⟨hwi.1, fun _ => hlt⟩
      · by_cases hr : 0 ≤ r <;> simp [Worker.started, hr]
      · by_cases hr : 0 ≤ r <;> simp [Worker.calls_made, hr] <;> omega
      · simp [List.length_set]
      · intro w1 hw1 _
        cases hw1
        apply steps_left_sum_set _ _ _ _ _ hw
        have hlt1 : i < l.requests_per_thread.toNat := hlt
        by_cases hr : 0 ≤ r
        · simp only [Worker.steps_left, hr, if_true]
          omega
        · simp only [Worker.steps_left, hr, if_false]
          omega
    | holding c =>
      have hlt := hwi.2 (by simp)
      have hq1 := (return_connection_keeps l.pool c hq).1
      refine ⟨_, ?_, inv_update l tk.thread ⟨i, Pc.holding c⟩ ⟨i, Pc.timing⟩
          (return_connection (process_with_connection l.pool c) c) l.stats l.acquired h0 hw hq1
          ?_ ?_ ?_ hh hm ha, rfl, ?_, ?_⟩
      · simp only [step, hw, thread_step]
      · exact ⟨hwi.1, fun _ => hlt⟩
      · simp [Worker.started]
      · simp [Worker.calls_made]
      · simp [List.length_set]
      · intro w1 hw1 _
        cases hw1
        apply steps_left_sum_set _ _ _ _ _ hw
        have hlt1 : i < l.requests_per_thread.toNat := hlt
        simp only [Worker.steps_left]
        omega
    | timing =>
      have hlt := hwi.2 (by simp)
      refine ⟨_, ?_, inv_update l tk.thread ⟨i, Pc.timing⟩ ⟨i + 1, Pc.loop_head⟩ l.pool
          { l.stats with
            total_response_time_ms := l.stats.total_response_time_ms + tk.duration }
          l.acquired h0 hw hq ?_ ?_ ?_ hh hm ha, rfl, ?_, ?_⟩
      · simp only [step, hw, thread_step]
      · refine ⟨?_, fun hne => absurd rfl hne⟩
        show i + 1 ≤ l.requests_per_thread.toNat
        exact hlt
      · simp [Worker.started]
      · simp [Worker.calls_made]
      · simp [List.length_set]
      · intro w1 hw1 _
        cases hw1
        apply steps_left_sum_set _ _ _ _ _ hw
        have hlt1 : i < l.requests_per_thread.toNat := hlt
        simp only [Worker.steps_left]
        omega

/-- When no worker has a step left, every worker thread has ended. -/
theorem steps_sum_zero_joined (l : Load) (h : l.inv)
    (hz : (l.threads.map (Worker.steps_left l.requests_per_thread)).sum = 0) :
    joined l = true := by
  rcases h with ⟨_, hws, _⟩
  rw [joined, List.all_eq_true]
  intro w hw
  have hzero : Worker.steps_left l.requests_per_thread w = 0 :=
    List.sum_eq_zero_iff.mp hz _ (List.mem_map_of_mem _ hw)
  have hwi := hws w hw
  rcases w with ⟨i, pc⟩
  cases pc with
  | loop_head =>
    simp only [Worker.steps_left] at hzero
    have : ¬ ((i : Int) < l.requests_per_thread) := by omega
    simp [this]
  | counted =>
    have hlt : i < l.requests_per_thread.toNat := hwi.2 (by simp)
    simp only [Worker.steps_left] at hzero
    omega
  | holding c =>
    have hlt : i < l.requests_per_thread.toNat := hwi.2 (by simp)
    simp only [Worker.steps_left] at hzero
    omega
  | timing =>
    have hlt : i < l.requests_per_thread.toNat := hwi.2 (by simp)
    simp only [Worker.steps_left] at hzero
    omega

/-- Every schedule runs without undefined behaviour and keeps the invariant. -/
theorem run_schedule_inv (schedule : List Tick) :
    ∀ l : Load, l.inv → ∃ l1, run_schedule l schedule = some l1 ∧ l1.inv ∧
      l1.requests_per_thread = l.requests_per_thread ∧
      l1.threads.length = l.threads.length := by
  induction schedule with
  | nil =>
    intro l h
    exact ⟨l, rfl, h, rfl, rfl⟩
  | cons tk rest ih =>
    intro l h
    rcases step_spec l tk h with ⟨l1, hstep, h1, hr1, hlen1, _⟩
    rcases ih l1 h1 with ⟨l2, hrun, h2, hr2, hlen2⟩
    refine ⟨l2, ?_, h2, hr2.trans hr1, hlen2.trans hlen1⟩
    simp only [run_schedule, hstep]
    exact hrun

/-- From every state of a running load some schedule lets every thread end. -/
theorem exists_joining_schedule (n : Nat) :
    ∀ l : Load, l.inv → (l.threads.map (Worker.steps_left l.requests_per_thread)).sum = n →
      ∃ schedule l1, run_schedule l schedule = some l1 ∧ joined l1 = true := by
  induction n using Nat.strong_induction_on with
  | _ n ih =>
    intro l h hn
    by_cases hz : n = 0
    · subst hz
      exact ⟨[], l, rfl, steps_sum_zero_joined l h hn⟩
    · have hex : ∃ w ∈ l.threads, 0 < Worker.steps_left l.requests_per_thread w := by
        by_contra hcon
        push_neg at hcon
        apply hz
        rw [← hn]
        apply List.sum_eq_zero
        intro x hx
        rcases List.mem_map.mp hx with ⟨w, hw, rfl⟩
        have := hcon w hw
        omega
      rcases hex with ⟨w, hwmem, hpos⟩
      rcases List.mem_iff_getElem?.mp hwmem with ⟨t, ht⟩
      rcases step_spec l ⟨t, 0, 0⟩ h with ⟨l1, hstep, h1, hr1, _, hdec⟩
      have hlt : (l1.threads.map (Worker.steps_left l1.requests_per_thread)).sum <
          (l.threads.map (Worker.steps_left l.requests_per_thread)).sum := by
        rw [hr1]
        exact hdec w ht hpos
      rcases ih _ (by rw [← hn]; exact hlt) l1 h1 rfl with ⟨schedule, l2, hrun, hj⟩
      refine ⟨⟨t, 0, 0⟩ :: schedule, l2, ?_, hj⟩
      simp only [run_schedule, hstep]
      exact hrun

/-- The starting state of `handle_concurrent_requests` satisfies the invariant when the
queued ids of the pool index its vector. -/
theorem inv_start_load (request_count thread_count : Int) (p : ConnectionPooledServer)
    (st : WebServer.Stats) (hq : queue_in_range p) :
    (start_load request_count thread_count p st).inv := by
  refine ⟨hq, ?_, ?_, ?_, rfl, rfl, rfl⟩
  · intro w hw
    simp only [start_load, List.mem_replicate] at hw
    rw [hw.2]
    exact ⟨Nat.zero_le _, fun hne => absurd rfl hne⟩
  · simp [start_load, WebServer.reset_stats, Worker.started]
  · simp [start_load, Worker.calls_made]

/-- In a joined state every thread has made `requests_per_thread` requests, and every
started request has made its call of `get_connection`. -/
theorem joined_counts (l : Load) (h : l.inv) (hj : joined l = true) :
    l.stats.total_requests = l.threads.length * l.requests_per_thread.toNat ∧
      l.acquired.length = l.stats.total_requests := by
  rcases h with ⟨_, hws, htot, hacq, _⟩
  rw [joined, List.all_eq_true] at hj
  have hstarted : ∀ w ∈ l.threads, Worker.started w = l.requests_per_thread.toNat ∧
      Worker.calls_made w = l.requests_per_thread.toNat := by
    intro w hw
    have h1 := hj w hw
    have h2 := hws w hw
    rcases w with ⟨i, pc⟩
    simp only [Bool.and_eq_true, decide_eq_true_eq, Bool.not_eq_true', decide_eq_false_iff_not]
      at h1
    rcases h1 with ⟨hpc, hi⟩
    subst hpc
    simp only [Worker.started, Worker.calls_made, if_true, Nat.add_zero]
    have hle : i ≤ l.requests_per_thread.toNat := h2.1
    omega
  have hsum : ∀ (f : Worker → Nat) (ws : List Worker) (c : Nat),
      (∀ w ∈ ws, f w = c) → (ws.map f).sum = ws.length * c := by
    intro f ws c
    induction ws with
    | nil => intro _; simp
    | cons x xs ih =>
      intro hall
      simp only [List.map_cons, List.sum_cons, List.length_cons]
      rw [ih (fun w hw => hall w (List.mem_cons_of_mem _ hw)), hall x (List.mem_cons_self _ _)]
      ring
  have e1 := hsum Worker.started l.threads _ (fun w hw => (hstarted w hw).1)
  have e2 := hsum Worker.calls_made l.threads _ (fun w hw => (hstarted w hw).2)
  constructor
  · rw [htot, e1]
  · rw [hacq, e2, htot, e1]

/-- Every recorded result of `get_connection` is a served or a dropped request. -/
theorem served_add_dropped (l : Load) : served l + dropped l = l.acquired.length := by
  unfold served dropped
  induction l.acquired with
  | nil => rfl
  | cons r rs ih =>
    by_cases hr : 0 ≤ r
    · have hn : ¬ r < 0 := by omega
      simp only [List.filter_cons, hr, hn, decide_True, decide_False, if_true, List.length_cons]
      simp only [Bool.false_eq_true, if_false]
      omega
    · have hn : r < 0 := by omega
      simp only [List.filter_cons, hr, hn, decide_True, decide_False, List.length_cons]
      simp only [Bool.false_eq_true, if_false, if_true, List.length_cons]
      omega

/-! ## A single `simulate_request` -/

/-- On an exhausted pool `simulate_request` only counts the request and adds the duration. -/
theorem simulate_request_exhausted (request_id : Int) (now duration : Nat)
    (p : ConnectionPooledServer) (st : WebServer.Stats) (hq : p.available_connections = []) :
    simulate_request request_id now duration p st =
      some (p, { st with total_requests := st.total_requests + 1,
                         total_response_time_ms := st.total_response_time_ms + duration }) := by
  simp [simulate_request, get_connection_nil now p hq]

/-- On a pool whose front id indexes the vector, `simulate_request` acquires that
connection and releases it again. -/
theorem simulate_request_served (request_id : Int) (now duration : Nat)
    (p : ConnectionPooledServer) (st : WebServer.Stats) (id : Int) (rest : List Int)
    (c : Connection) (hq : p.available_connections = id :: rest) (h0 : 0 ≤ id)
    (hc : p.connection_pool[id.toNat]? = some c) :
    simulate_request request_id now duration p st =
      some ({ connection_pool :=
                p.connection_pool.set id.toNat { c with state := IDLE, last_activity := now }
              available_connections := rest ++ [id] },
            { st with total_requests := st.total_requests + 1,
                      total_response_time_ms := st.total_response_time_ms + duration }) := by
  have hlt : id.toNat < p.connection_pool.length := (List.getElem?_eq_some.mp hc).1
  have hc1 : (p.connection_pool.set id.toNat
      { c with state := ACTIVE, last_activity := now })[id.toNat]? =
      some { c with state := ACTIVE, last_activity := now } :=
    List.getElem?_set_self hlt
  simp only [simulate_request, get_connection_cons now p id rest c hq h0 hc, h0, if_true,
    process_with_connection]
  rw [return_connection_in_range _ id _ h0 hc1]
  simp only [List.set_set]

/-- On every pool whose queued ids index the vector, `simulate_request` returns, and its
effect on the counters does not depend on the pool. -/
theorem simulate_request_stats (request_id : Int) (now duration : Nat)
    (p : ConnectionPooledServer) (st : WebServer.Stats) (h : queue_in_range p) :
    ∃ p1, simulate_request request_id now duration p st =
      some (p1, { st with total_requests := st.total_requests + 1,
                          total_response_time_ms := st.total_response_time_ms + duration }) := by
  cases hq : p.available_connections with
  | nil => exact ⟨p, simulate_request_exhausted request_id now duration p st hq⟩
  | cons id rest =>
    have hid := h id (by rw [hq]; exact List.mem_cons_self _ _)
    rcases getElem?_of_in_range hid with ⟨c, hc⟩
    exact ⟨_, simulate_request_served request_id now duration p st id rest c hq hid.1 hc⟩

/-! ## The claims about the cache lookup -/

/-- C11 (failing input): the lookup of the unknown path `/nonexistent` on the initialized
cache, from counters that are all 0, increments both counters by one: `cache_misses` in the
`else` branch and `cache_hits` in the recursive call on the fallback key. -/
theorem lookup_increments_both_counterexample :
    OptimizedWebServer.send_cached_response OptimizedWebServer.new 2 "/nonexistent"
        { total_requests := 0, total_allocations := 0, total_response_time_ms := 0,
          cache_hits := 0, cache_misses := 0 } =
      some (⟨OptimizedWebServer.HTTP_404, OptimizedWebServer.CONTENT_TYPE_HTML,
              OptimizedWebServer.NOT_FOUND_CONTENT⟩,
            { total_requests := 0, total_allocations := 0, total_response_time_ms := 0,
              cache_hits := 1, cache_misses := 1 }) ∧
      OptimizedWebServer.find OptimizedWebServer.new.response_cache "/nonexistent" = none := by
  decide

/-- C12: on the initialized cache the entry a lookup resolves to is the entry stored under
the path when the path is a key, and the entry stored under "404" otherwise; the lookup of
`/does-not-exist` resolves to the same entry as the lookup of "404". -/
theorem lookup_resolves_entry (fuel : Nat) (path : String) (st : WebServer.Stats) :
    (OptimizedWebServer.send_cached_response OptimizedWebServer.new (fuel + 2) path st).map
        Prod.fst =
      (match OptimizedWebServer.find OptimizedWebServer.new.response_cache path with
        | some entry => some entry
        | none => OptimizedWebServer.find OptimizedWebServer.new.response_cache "404") ∧
      OptimizedWebServer.find OptimizedWebServer.new.response_cache "404" =
        some ⟨OptimizedWebServer.HTTP_404, OptimizedWebServer.CONTENT_TYPE_HTML,
          OptimizedWebServer.NOT_FOUND_CONTENT⟩ ∧
      (OptimizedWebServer.send_cached_response OptimizedWebServer.new (fuel + 2)
          "/does-not-exist" st).map Prod.fst =
        (OptimizedWebServer.send_cached_response OptimizedWebServer.new (fuel + 2)
          "404" st).map Prod.fst := by
  have hfb := OptimizedWebServer.find_new_fallback
  have hdne : OptimizedWebServer.find OptimizedWebServer.new.response_cache "/does-not-exist" =
      none := by decide
  refine ⟨?_, hfb, ?_⟩
  · cases hfind : OptimizedWebServer.find OptimizedWebServer.new.response_cache path with
    | some entry =>
      rw [OptimizedWebServer.send_cached_response_known _ (fuel + 1) path st entry hfind]
      rfl
    | none =>
      rw [OptimizedWebServer.send_cached_response_unknown _ fuel path st _ hfb hfind, hfb]
      rfl
  · rw [OptimizedWebServer.send_cached_response_unknown _ fuel "/does-not-exist" st _ hfb hdne,
      OptimizedWebServer.send_cached_response_known _ (fuel + 1) "404" st _ hfb]
    rfl

/-- C13: for every cache that contains the key "404" and every path, `send_cached_response`
returns an entry at recursion depth at most two (at most one recursive call), with the same
result for every larger bound; the entry is the one stored under the path or the fallback.
Without the key "404" the recursion on an unknown path never ends: no bound suffices. -/
theorem lookup_terminates (s : OptimizedWebServer) (fallback : CachedResponse)
    (h404 : OptimizedWebServer.find s.response_cache "404" = some fallback)
    (fuel : Nat) (path : String) (st : WebServer.Stats) :
    (∃ e st1, OptimizedWebServer.send_cached_response s 2 path st = some (e, st1) ∧
        OptimizedWebServer.send_cached_response s (fuel + 2) path st = some (e, st1) ∧
        (OptimizedWebServer.find s.response_cache path = some e ∨
          (OptimizedWebServer.find s.response_cache path = none ∧ e = fallback))) ∧
      (∀ (s2 : OptimizedWebServer) (path2 : String) (st2 : WebServer.Stats) (fuel2 : Nat),
        OptimizedWebServer.find s2.response_cache "404" = none →
        OptimizedWebServer.find s2.response_cache path2 = none →
        OptimizedWebServer.send_cached_response s2 fuel2 path2 st2 = none) := by
  constructor
  · cases hfind : OptimizedWebServer.find s.response_cache path with
    | some entry =>
      exact ⟨entry, _, OptimizedWebServer.send_cached_response_known s 1 path st entry hfind,
        OptimizedWebServer.send_cached_response_known s (fuel + 1) path st entry hfind,
        Or.inl rfl⟩
    | none =>
      exact ⟨fallback, _,
        OptimizedWebServer.send_cached_response_unknown s 0 path st fallback h404 hfind,
        OptimizedWebServer.send_cached_response_unknown s fuel path st fallback h404 hfind,
        Or.inr ⟨rfl, rfl⟩⟩
  · intro s2 path2 st2 fuel2 hno hnone
    induction fuel2 generalizing path2 st2 with
    | zero => rfl
    | succ k ih =>
      simp only [OptimizedWebServer.send_cached_response, hnone]
      exact ih "404" _ hno

theorem lookup_terminates_witness :
    OptimizedWebServer.find OptimizedWebServer.new.response_cache "404" =
        some ⟨OptimizedWebServer.HTTP_404, OptimizedWebServer.CONTENT_TYPE_HTML,
          OptimizedWebServer.NOT_FOUND_CONTENT⟩ ∧
      ((∃ e st1, OptimizedWebServer.send_cached_response OptimizedWebServer.new 2 "/missing"
            ⟨0, 0, 0, 0, 0⟩ = some (e, st1) ∧
          OptimizedWebServer.send_cached_response OptimizedWebServer.new (5 + 2) "/missing"
            ⟨0, 0, 0, 0, 0⟩ = some (e, st1) ∧
          (OptimizedWebServer.find OptimizedWebServer.new.response_cache "/missing" = some e ∨
            (OptimizedWebServer.find OptimizedWebServer.new.response_cache "/missing" = none ∧
              e = ⟨OptimizedWebServer.HTTP_404, OptimizedWebServer.CONTENT_TYPE_HTML,
                OptimizedWebServer.NOT_FOUND_CONTENT⟩))) ∧
        (∀ (s2 : OptimizedWebServer) (path2 : String) (st2 : WebServer.Stats) (fuel2 : Nat),
          OptimizedWebServer.find s2.response_cache "404" = none →
          OptimizedWebServer.find s2.response_cache path2 = none →
          OptimizedWebServer.send_cached_response s2 fuel2 path2 st2 = none)) :=
  ⟨by decide,
    lookup_terminates OptimizedWebServer.new _ (by decide) 5 "/missing" ⟨0, 0, 0, 0, 0⟩⟩

/-! ## The claims about the request dispatcher -/

/-- For a non-zero `thread_count`, every schedule of `handle_concurrent_requests` on a pool
whose queued ids index the vector runs without undefined behaviour, and some schedule lets
all threads end. -/
theorem handle_concurrent_requests_runs (request_count thread_count : Int)
    (p : ConnectionPooledServer) (st : WebServer.Stats) (htc : thread_count ≠ 0)
    (hq : queue_in_range p) :
    (∃ schedule l, handle_concurrent_requests request_count thread_count schedule p st = some l ∧
        joined l = true) ∧
      ∀ schedule, ∃ l,
        handle_concurrent_requests request_count thread_count schedule p st = some l ∧
        l.inv ∧ l.requests_per_thread = Int.tdiv request_count thread_count ∧
        l.threads.length = thread_count.toNat := by
  have hinv := inv_start_load request_count thread_count p st hq
  constructor
  · rcases exists_joining_schedule _ _ hinv rfl with ⟨schedule, l, hrun, hj⟩
    exact ⟨schedule, l, by simp only [handle_concurrent_requests, htc, if_false]; exact hrun, hj⟩
  · intro schedule
    rcases run_schedule_inv schedule _ hinv with ⟨l, hrun, hl, hr, hlen⟩
    refine ⟨l, by simp only [handle_concurrent_requests, htc, if_false]; exact hrun, hl, ?_, ?_⟩
    · rw [hr]
      rfl
    · rw [hlen]
      simp [start_load]

/-- C14 (counterexample): capacity 1, one request, one worker. The request is served; no
request finds the pool exhausted; `cache_hits` and `cache_misses` are 0 afterwards, so
hits, misses and dropped requests add up to 0, not to 1. -/
theorem load_accounting_counterexample :
    ∃ l, handle_concurrent_requests 1 1 [⟨0, 0, 0⟩, ⟨0, 0, 0⟩, ⟨0, 0, 0⟩, ⟨0, 0, 0⟩]
        (new 1 frozen_clock) ⟨0, 0, 0, 0, 0⟩ = some l ∧
      joined l = true ∧
      l.stats = { total_requests := 1, total_allocations := 0, total_response_time_ms := 0,
                  cache_hits := 0, cache_misses := 0 } ∧
      l.acquired = [0] ∧ dropped l = 0 ∧
      l.stats.cache_hits + l.stats.cache_misses + dropped l ≠ 1 :=
  ⟨{ pool := { connection_pool := [⟨0, IDLE, 0⟩], available_connections := [0] }
     stats := { total_requests := 1, total_allocations := 0, total_response_time_ms := 0,
                cache_hits := 0, cache_misses := 0 }
     requests_per_thread := 1
     threads := [⟨1, Pc.loop_head⟩]
     acquired := [0] },
    by decide, by decide, rfl, rfl, by decide, by decide⟩

/-- C14 (amended): for every capacity, every `N >= 0` and `W >= 1`, some schedule of the
workers of `handle_concurrent_requests(N, W)` lets the call return, and under every
schedule the run is defined, `cache_hits` and `cache_misses` are 0, and when the call
returns every issued request (there are `total_requests` of them) has ended in exactly
one of two outcomes, served or dropped for lack of a connection, neither of which the
code counts. -/
theorem load_accounting (cap N W : Nat) (clock : Nat → Nat) (st : WebServer.Stats) :
    (∃ schedule l,
        handle_concurrent_requests (N : Int) ((W + 1 : Nat) : Int) schedule (new cap clock) st =
          some l ∧ joined l = true) ∧
      ∀ schedule, ∃ l,
        handle_concurrent_requests (N : Int) ((W + 1 : Nat) : Int) schedule (new cap clock) st =
          some l ∧
        l.stats.cache_hits = 0 ∧ l.stats.cache_misses = 0 ∧
        (joined l = true → served l + dropped l = l.stats.total_requests) := by
  have htc : ((W + 1 : Nat) : Int) ≠ 0 := by omega
  rcases handle_concurrent_requests_runs (N : Int) ((W + 1 : Nat) : Int) (new cap clock) st htc
    (queue_in_range_new cap clock) with ⟨hex, hall⟩
  refine ⟨hex, ?_⟩
  intro schedule
  rcases hall schedule with ⟨l, hrun, hinv, _, _⟩
  refine ⟨l, hrun, hinv.2.2.2.2.1, hinv.2.2.2.2.2.1, ?_⟩
  intro hj
  rw [served_add_dropped]
  exact (joined_counts l hinv hj).2

/-- C15 (failing input): `handle_concurrent_requests(10, 3)` on a pool of any capacity. Some
schedule lets the call return, and whenever it returns `total_requests` is 9, not 10: each
of the three workers gets `10 / 3 = 3` requests and the tenth is never issued. -/
theorem ten_requests_three_workers (cap : Nat) (clock : Nat → Nat) (st : WebServer.Stats) :
    (∃ schedule l,
        handle_concurrent_requests 10 3 schedule (new cap clock) st = some l ∧
          joined l = true) ∧
      ∀ schedule, ∃ l,
        handle_concurrent_requests 10 3 schedule (new cap clock) st = some l ∧
        (joined l = true → l.stats.total_requests = 9) := by
  rcases handle_concurrent_requests_runs 10 3 (new cap clock) st (by decide)
    (queue_in_range_new cap clock) with ⟨hex, hall⟩
  refine ⟨hex, ?_⟩
  intro schedule
  rcases hall schedule with ⟨l, hrun, hinv, hr, hlen⟩
  refine ⟨l, hrun, ?_⟩
  intro hj
  rw [(joined_counts l hinv hj).1, hr, hlen]
  decide

/-- C16 (counterexample): a request that finds the pool exhausted changes `total_requests`
and nothing else (the measured duration being 0): no other counter records the event. A
served request with the same duration leaves exactly the same counter values. -/
theorem dropped_request_counterexample :
    simulate_request 0 5 0
        { connection_pool := [⟨0, ACTIVE, 0⟩], available_connections := [] }
        { total_requests := 3, total_allocations := 0, total_response_time_ms := 0,
          cache_hits := 0, cache_misses := 0 } =
      some ({ connection_pool := [⟨0, ACTIVE, 0⟩], available_connections := [] },
            { total_requests := 4, total_allocations := 0, total_response_time_ms := 0,
              cache_hits := 0, cache_misses := 0 }) ∧
      simulate_request 0 5 0
        { connection_pool := [⟨0, IDLE, 0⟩], available_connections := [0] }
        { total_requests := 3, total_allocations := 0, total_response_time_ms := 0,
          cache_hits := 0, cache_misses := 0 } =
      some ({ connection_pool := [⟨0, IDLE, 5⟩], available_connections := [0] },
            { total_requests := 4, total_allocations := 0, total_response_time_ms := 0,
              cache_hits := 0, cache_misses := 0 }) := by
  decide

/-- C16 (amended): when `simulate_request` finds no connection available the request is
dropped: the pool, `cache_hits`, `cache_misses` and `total_allocations` are unchanged,
`total_requests` is incremented and the measured duration is added to
`total_response_time_ms`. A served request changes the counters in exactly the same way,
so no counter records the event. -/
theorem dropped_request_effect (request_id : Int) (now duration : Nat)
    (p : ConnectionPooledServer) (st : WebServer.Stats) (hq : p.available_connections = []) :
    simulate_request request_id now duration p st =
        some (p, { st with total_requests := st.total_requests + 1,
                           total_response_time_ms := st.total_response_time_ms + duration }) ∧
      ∀ p2 : ConnectionPooledServer, queue_in_range p2 →
        ∃ p3, simulate_request request_id now duration p2 st =
          some (p3, { st with total_requests := st.total_requests + 1,
                              total_response_time_ms := st.total_response_time_ms + duration }) :=
  ⟨simulate_request_exhausted request_id now duration p st hq,
    fun p2 h2 => simulate_request_stats request_id now duration p2 st h2⟩

theorem dropped_request_effect_witness :
    ({ connection_pool := [⟨0, ACTIVE, 0⟩], available_connections := [] } :
        ConnectionPooledServer).available_connections = [] ∧
      (simulate_request 7 5 2
          { connection_pool := [⟨0, ACTIVE, 0⟩], available_connections := [] }
          ⟨3, 0, 0, 0, 0⟩ =
        some ({ connection_pool := [⟨0, ACTIVE, 0⟩], available_connections := [] },
              { (⟨3, 0, 0, 0, 0⟩ : WebServer.Stats) with
                total_requests := 3 + 1, total_response_time_ms := 0 + 2 }) ∧
        ∀ p2 : ConnectionPooledServer, queue_in_range p2 →
          ∃ p3, simulate_request 7 5 2 p2 ⟨3, 0, 0, 0, 0⟩ =
            some (p3, { (⟨3, 0, 0, 0, 0⟩ : WebServer.Stats) with
                        total_requests := 3 + 1, total_response_time_ms := 0 + 2 })) :=
  ⟨rfl, dropped_request_effect 7 5 2
    { connection_pool := [⟨0, ACTIVE, 0⟩], available_connections := [] } ⟨3, 0, 0, 0, 0⟩ rfl⟩

/-- C17 (counterexample): the pool state with connection 0 `ACTIVE` and the queue `[0]` is
reached from construction by `release(0)` and `acquire`; `simulate_request` on it leaves
connection 0 `IDLE`, so not every connection has the state it had before the call. -/
theorem simulate_request_changes_state_counterexample :
    run (new 1 frozen_clock) [Call.release 0, Call.acquire 0] =
        some { connection_pool := [⟨0, ACTIVE, 0⟩], available_connections := [0] } ∧
      simulate_request 0 5 0
        { connection_pool := [⟨0, ACTIVE, 0⟩], available_connections := [0] }
        ⟨0, 0, 0, 0, 0⟩ =
      some ({ connection_pool := [⟨0, IDLE, 5⟩], available_connections := [0] },
            ⟨1, 0, 0, 0, 0⟩) ∧
      [(⟨0, IDLE, 5⟩ : Connection)].map Connection.state ≠
        [(⟨0, ACTIVE, 0⟩ : Connection)].map Connection.state := by
  decide

/-- C17 (amended): for every pool state whose queue is non-empty and whose front id
belongs to an `IDLE` connection, `simulate_request` returns with the slot it acquired
released: every connection has the same state as before the call, and the availability
queue holds the same ids with the same multiplicities, the acquired id having moved from
the front to the back. -/
theorem simulate_request_returns_slot (request_id : Int) (now duration : Nat)
    (p : ConnectionPooledServer) (st : WebServer.Stats) (id : Int) (rest : List Int)
    (hq : p.available_connections = id :: rest) (hidle : state_of p id = some IDLE) :
    ∃ p1 st1, simulate_request request_id now duration p st = some (p1, st1) ∧
      p1.connection_pool.map Connection.state = p.connection_pool.map Connection.state ∧
      p1.available_connections = rest ++ [id] ∧
      List.Perm p1.available_connections p.available_connections := by
  rcases state_of_eq_some hidle with ⟨h0, c, hc, hcs⟩
  have hlt : id.toNat < p.connection_pool.length := (List.getElem?_eq_some.mp hc).1
  refine ⟨_, _, simulate_request_served request_id now duration p st id rest c hq h0 hc,
    ?_, rfl, ?_⟩
  · simp only [List.map_set]
    apply List.ext_getElem?
    intro j
    rw [List.getElem?_set]
    by_cases hj : id.toNat = j
    · subst hj
      have hce : p.connection_pool[id.toNat] = c := by
        rw [List.getElem?_eq_getElem hlt] at hc
        exact Option.some.inj hc
      simp [hlt, hce, hcs]
    · simp [hj]
  · rw [hq]
    exact List.perm_append_singleton id rest

theorem simulate_request_returns_slot_witness :
    (new 2 frozen_clock).available_connections = 0 :: [1] ∧
      state_of (new 2 frozen_clock) 0 = some IDLE ∧
      ∃ p1 st1, simulate_request 0 5 3 (new 2 frozen_clock) ⟨0, 0, 0, 0, 0⟩ = some (p1, st1) ∧
        p1.connection_pool.map Connection.state =
          (new 2 frozen_clock).connection_pool.map Connection.state ∧
        p1.available_connections = [1] ++ [0] ∧
        List.Perm p1.available_connections (new 2 frozen_clock).available_connections :=
  ⟨by decide, by decide,
    simulate_request_returns_slot 0 5 3 (new 2 frozen_clock) ⟨0, 0, 0, 0, 0⟩ 0 [1]
      (by decide) (by decide)⟩

/-- Incrementing the unreduced sum and reducing is incrementing the held value as a
`size_t`. -/
theorem as_size_t_succ (x : Nat) :
    WebServer.as_size_t (x + 1) = WebServer.as_size_t (WebServer.as_size_t x + 1) := by
  simp [WebServer.as_size_t, Nat.add_mod]

theorem as_size_t_succ_of_lt (x : Nat) (h : x < 2 ^ 64 - 1) :
    WebServer.as_size_t (x + 1) = x + 1 := by
  unfold WebServer.as_size_t
  exact Nat.mod_eq_of_lt (by omega)

theorem as_size_t_succ_of_max (x : Nat) (h : x = 2 ^ 64 - 1) :
    WebServer.as_size_t (x + 1) = 0 := by
  subst h
  decide

/-- C18: every call of `handle_request` increments `total_requests` by exactly one, as the
`size_t` counter it is: the value held after the call is the value held before plus one
modulo `2 ^ 64`, that is one more below `SIZE_MAX` and `0` at `SIZE_MAX`. For the pooled
server this holds of `simulate_request` in every pool state reached from construction by
any sequence of `acquire` and `release` calls, whether the queue is empty or not; for the
cached server it holds of `handle_request` for every path, known or unknown. Both calls
return. -/
theorem handle_request_counts_once (cap : Nat) (clock : Nat → Nat) (calls : List Call)
    (request_id : Int) (now duration : Nat) (st : WebServer.Stats)
    (fuel : Nat) (path method : String) :
    (∃ p, run (new cap clock) calls = some p ∧
        ∃ p1 st1, simulate_request request_id now duration p st = some (p1, st1) ∧
          WebServer.as_size_t st1.total_requests =
            WebServer.as_size_t (WebServer.as_size_t st.total_requests + 1) ∧
          (st.total_requests < 2 ^ 64 - 1 →
            WebServer.as_size_t st1.total_requests = st.total_requests + 1) ∧
          (st.total_requests = 2 ^ 64 - 1 → WebServer.as_size_t st1.total_requests = 0)) ∧
      ∃ st2, OptimizedWebServer.handle_request OptimizedWebServer.new (fuel + 2) path method
          duration st = some st2 ∧
        WebServer.as_size_t st2.total_requests =
          WebServer.as_size_t (WebServer.as_size_t st.total_requests + 1) ∧
        (st.total_requests < 2 ^ 64 - 1 →
          WebServer.as_size_t st2.total_requests = st.total_requests + 1) ∧
        (st.total_requests = 2 ^ 64 - 1 → WebServer.as_size_t st2.total_requests = 0) := by
  constructor
  · rcases run_defined calls (new cap clock) (queue_in_range_new cap clock)
      (two_state_new cap clock) with ⟨p, hrun, hq, _, _⟩
    rcases simulate_request_stats request_id now duration p st hq with ⟨p1, hsim⟩
    exact ⟨p, hrun, p1, _, hsim, as_size_t_succ st.total_requests,
      as_size_t_succ_of_lt st.total_requests, as_size_t_succ_of_max st.total_requests⟩
  · have hsend : ∃ e st1, OptimizedWebServer.send_cached_response OptimizedWebServer.new
        (fuel + 2) path { st with total_requests := st.total_requests + 1 } = some (e, st1) ∧
        st1.total_requests = st.total_requests + 1 := by
      cases hfind : OptimizedWebServer.find OptimizedWebServer.new.response_cache path with
      | some entry =>
        exact ⟨entry, _,
          OptimizedWebServer.send_cached_response_known _ (fuel + 1) path _ entry hfind, rfl⟩
      | none =>
        exact ⟨_, _,
          OptimizedWebServer.send_cached_response_unknown _ fuel path _ _
            OptimizedWebServer.find_new_fallback hfind, rfl⟩
    rcases hsend with ⟨e, st1, hsend, ht⟩
    refine ⟨{ st1 with total_response_time_ms := st1.total_response_time_ms + duration },
      by simp only [OptimizedWebServer.handle_request, hsend], ?_, ?_, ?_⟩
    · show WebServer.as_size_t st1.total_requests = _
      rw [ht]
      exact as_size_t_succ st.total_requests
    · intro h
      show WebServer.as_size_t st1.total_requests = _
      rw [ht]
      exact as_size_t_succ_of_lt st.total_requests h
    · intro h
      show WebServer.as_size_t st1.total_requests = _
      rw [ht]
      exact as_size_t_succ_of_max st.total_requests h

/-- C20: `initialize_cache` on the uninitialized server (empty map, flag unset) sets the
flag and yields a map whose keys are exactly `/`, `/about`, `/api/status`, `/api/users`
and "404"; the four routes map to entries with the 200 status header and "404" maps to the
entry with the 404 status header and the not-found body. -/
theorem initialize_cache_entries :
    OptimizedWebServer.initialize_cache { response_cache := [], cache_initialized := false } =
        { response_cache :=
            [("/", ⟨OptimizedWebServer.HTTP_200, OptimizedWebServer.CONTENT_TYPE_HTML,
                OptimizedWebServer.HOME_CONTENT⟩),
             ("/about", ⟨OptimizedWebServer.HTTP_200, OptimizedWebServer.CONTENT_TYPE_HTML,
                OptimizedWebServer.ABOUT_CONTENT⟩),
             ("/api/status", ⟨OptimizedWebServer.HTTP_200, OptimizedWebServer.CONTENT_TYPE_JSON,
                OptimizedWebServer.API_STATUS_RESPONSE⟩),
             ("/api/users", ⟨OptimizedWebServer.HTTP_200, OptimizedWebServer.CONTENT_TYPE_JSON,
                OptimizedWebServer.API_USERS_RESPONSE⟩),
             ("404", ⟨OptimizedWebServer.HTTP_404, OptimizedWebServer.CONTENT_TYPE_HTML,
                OptimizedWebServer.NOT_FOUND_CONTENT⟩)]
          cache_initialized := true } ∧
      (∀ path : String,
        (OptimizedWebServer.find
            (OptimizedWebServer.initialize_cache
              { response_cache := [], cache_initialized := false }).response_cache path).isSome =
            true ↔
          path ∈ ["/", "/about", "/api/status", "/api/users", "404"]) ∧
      (∀ path ∈ ["/", "/about", "/api/status", "/api/users"],
        ∃ e, OptimizedWebServer.find
            (OptimizedWebServer.initialize_cache
              { response_cache := [], cache_initialized := false }).response_cache path =
            some e ∧ e.header = OptimizedWebServer.HTTP_200 ∧
          OptimizedWebServer.HTTP_200 = "HTTP/1.1 200 OK\r\n") ∧
      OptimizedWebServer.find
          (OptimizedWebServer.initialize_cache
            { response_cache := [], cache_initialized := false }).response_cache "404" =
        some ⟨"HTTP/1.1 404 Not Found\r\n", OptimizedWebServer.CONTENT_TYPE_HTML,
          "Page not found."⟩ := by
  have hinit : OptimizedWebServer.initialize_cache
      { response_cache := [], cache_initialized := false } =
      { response_cache :=
          [("/", ⟨OptimizedWebServer.HTTP_200, OptimizedWebServer.CONTENT_TYPE_HTML,
              OptimizedWebServer.HOME_CONTENT⟩),
           ("/about", ⟨OptimizedWebServer.HTTP_200, OptimizedWebServer.CONTENT_TYPE_HTML,
              OptimizedWebServer.ABOUT_CONTENT⟩),
           ("/api/status", ⟨OptimizedWebServer.HTTP_200, OptimizedWebServer.CONTENT_TYPE_JSON,
              OptimizedWebServer.API_STATUS_RESPONSE⟩),
           ("/api/users", ⟨OptimizedWebServer.HTTP_200, OptimizedWebServer.CONTENT_TYPE_JSON,
              OptimizedWebServer.API_USERS_RESPONSE⟩),
           ("404", ⟨OptimizedWebServer.HTTP_404, OptimizedWebServer.CONTENT_TYPE_HTML,
              OptimizedWebServer.NOT_FOUND_CONTENT⟩)]
        cache_initialized := true } := by decide
  refine ⟨hinit, ?_, ?_, ?_⟩
  · intro path
    rw [hinit]
    simp only [OptimizedWebServer.find, List.mem_cons, List.mem_singleton, List.not_mem_nil,
      or_false]
    constructor
    · intro h
      by_cases h1 : "/" = path
      · exact Or.inl h1.symm
      by_cases h2 : "/about" = path
      · exact Or.inr (Or.inl h2.symm)
      by_cases h3 : "/api/status" = path
      · exact Or.inr (Or.inr (Or.inl h3.symm))
      by_cases h4 : "/api/users" = path
      · exact Or.inr (Or.inr (Or.inr (Or.inl h4.symm)))
      by_cases h5 : "404" = path
      · exact Or.inr (Or.inr (Or.inr (Or.inr h5.symm)))
      simp [h1, h2, h3, h4, h5] at h
    · intro h
      rcases h with h | h | h | h | h <;> subst h <;> decide
  · intro path hpath
    rw [hinit]
    simp only [List.mem_cons, List.mem_singleton, List.not_mem_nil, or_false] at hpath
    rcases hpath with h | h | h | h <;> subst h
    · exact ⟨⟨OptimizedWebServer.HTTP_200, OptimizedWebServer.CONTENT_TYPE_HTML,
        OptimizedWebServer.HOME_CONTENT⟩, by decide, rfl, rfl⟩
    · exact ⟨⟨OptimizedWebServer.HTTP_200, OptimizedWebServer.CONTENT_TYPE_HTML,
        OptimizedWebServer.ABOUT_CONTENT⟩, by decide, rfl, rfl⟩
    · exact ⟨⟨OptimizedWebServer.HTTP_200, OptimizedWebServer.CONTENT_TYPE_JSON,
        OptimizedWebServer.API_STATUS_RESPONSE⟩, by decide, rfl, rfl⟩
    · exact ⟨⟨OptimizedWebServer.HTTP_200, OptimizedWebServer.CONTENT_TYPE_JSON,
        OptimizedWebServer.API_USERS_RESPONSE⟩, by decide, rfl, rfl⟩
  · rw [hinit]
    decide

/-! ## The object `OptimizedWebServer` under sequences of calls -/

namespace OptimizedWebServer

theorem initialize_cache_of_initialized (c : List (String × CachedResponse)) :
    initialize_cache { response_cache := c, cache_initialized := true } =
      { response_cache := c, cache_initialized := true } := by
  simp [initialize_cache]

theorem initialize_cache_flag (s : OptimizedWebServer) :
    (initialize_cache s).cache_initialized = true := by
  unfold initialize_cache
  by_cases h : s.cache_initialized = true
  · simp [h]
  · simp [h]

theorem initialize_cache_idempotent (s : OptimizedWebServer) :
    initialize_cache (initialize_cache s) = initialize_cache s := by
  have h := initialize_cache_flag s
  generalize initialize_cache s = s1 at h
  rcases s1 with ⟨c, flag⟩
  simp only at h
  subst h
  exact initialize_cache_of_initialized c

theorem initialize_cache_new : initialize_cache new = new :=
  initialize_cache_idempotent _

/-- A lookup changes no counter other than the hit and miss counters, whatever the cache. -/
theorem send_cached_response_frame (s : OptimizedWebServer) (fuel : Nat) :
    ∀ (path : String) (st : WebServer.Stats) (e : CachedResponse) (st1 : WebServer.Stats),
      send_cached_response s fuel path st = some (e, st1) →
        st1.total_requests = st.total_requests ∧
        st1.total_allocations = st.total_allocations ∧
        st1.total_response_time_ms = st.total_response_time_ms := by
  induction fuel with
  | zero =>
    intro path st e st1 h
    simp [send_cached_response] at h
  | succ k ih =>
    intro path st e st1 h
    cases hfind : find s.response_cache path with
    | some entry =>
      simp only [send_cached_response, hfind, Option.some.injEq, Prod.mk.injEq] at h
      rw [← h.2]
      exact ⟨rfl, rfl, rfl⟩
    | none =>
      simp only [send_cached_response, hfind] at h
      have h2 := ih _ _ _ _ h
      exact h2

theorem send_cached_response_new_returns (fuel : Nat) (path : String) (st : WebServer.Stats) :
    ∃ e st1, send_cached_response new (fuel + 2) path st = some (e, st1) := by
  cases hfind : find new.response_cache path with
  | some entry => exact ⟨_, _, send_cached_response_known _ (fuel + 1) path st entry hfind⟩
  | none => exact ⟨_, _, send_cached_response_unknown _ fuel path st _ find_new_fallback hfind⟩

/-- Whether the path of iteration `i` of the load test is unknown to the cache. -/
theorem load_test_path_unknown (durations : Nat → Nat) (i : Nat) :
    (find new.response_cache (load_test_request durations i).1).isNone = decide (i % 5 = 4) := by
  have hlt : i % 5 < 5 := Nat.mod_lt _ (by decide)
  have hlen : test_paths.length = 5 := rfl
  simp only [load_test_request, hlen]
  interval_cases h : i % 5 <;> decide

/-- Number of iterations of the load test with an unknown path. -/
theorem unknown_paths_load_test (durations : Nat → Nat) (n : Nat) :
    unknown_paths new ((List.range n).map (load_test_request durations)) = n / 5 := by
  induction n with
  | zero => rfl
  | succ k ih =>
    unfold unknown_paths at ih ⊢
    rw [List.range_succ, List.map_append, List.filter_append, List.length_append, ih]
    simp only [List.map_cons, List.map_nil, List.filter_cons, List.filter_nil,
      load_test_path_unknown]
    by_cases h : k % 5 = 4
    · simp only [h, decide_True, if_true, List.length_cons, List.length_nil]
      omega
    · simp only [h, decide_False, List.length_nil]
      simp only [Bool.false_eq_true, if_false, List.length_nil]
      omega

/-- The load test on the constructed server returns, with these counters. -/
theorem run_load_test_counters (fuel n : Nat) (durations : Nat → Nat) (st : WebServer.Stats) :
    ∃ st1, run_load_test new (fuel + 2) (n : Int) durations st = some st1 ∧
      st1.total_requests = n ∧ st1.cache_hits = n ∧ st1.cache_misses = n / 5 := by
  rcases handle_requests_counters new _ find_new_fallback fuel
    ((List.range n).map (load_test_request durations)) (WebServer.reset_stats st)
    with ⟨st1, hrun, ht, hh, hm⟩
  refine ⟨st1, ?_, ?_, ?_, ?_⟩
  · simp only [run_load_test, Int.toNat_ofNat]
    exact hrun
  · simpa [WebServer.reset_stats] using ht
  · simpa [WebServer.reset_stats] using hh
  · rw [hm, unknown_paths_load_test]
    simp [WebServer.reset_stats]

/-- Every call on the constructed server returns and leaves the object as constructed. -/
theorem apply_op_new (fuel : Nat) (op : Op) (st : WebServer.Stats) :
    ∃ st1, apply_op (fuel + 2) op (new, st) = some (new, st1) := by
  cases op with
  | init => exact ⟨st, by simp only [apply_op, initialize_cache_new]⟩
  | lookup path =>
    rcases send_cached_response_new_returns fuel path st with ⟨e, st1, h⟩
    exact ⟨st1, by simp only [apply_op, h]⟩
  | request path method duration =>
    rcases send_cached_response_new_returns fuel path
      { st with total_requests := st.total_requests + 1 } with ⟨e, st1, h⟩
    exact ⟨{ st1 with total_response_time_ms := st1.total_response_time_ms + duration },
      by simp only [apply_op, handle_request, h]⟩
  | load_test request_count durations =>
    rcases handle_requests_counters new _ find_new_fallback fuel
      ((List.range request_count.toNat).map (load_test_request durations))
      (WebServer.reset_stats st) with ⟨st1, hrun, _⟩
    exact ⟨st1, by simp only [apply_op, run_load_test, hrun]⟩

theorem apply_ops_new (fuel : Nat) (ops : List Op) :
    ∀ st : WebServer.Stats, ∃ st1, apply_ops (fuel + 2) ops (new, st) = some (new, st1) := by
  induction ops with
  | nil =>
    intro st
    exact ⟨st, rfl⟩
  | cons op rest ih =>
    intro st
    rcases apply_op_new fuel op st with ⟨st1, h1⟩
    rcases ih st1 with ⟨st2, h2⟩
    exact ⟨st2, by simp only [apply_ops, h1]; exact h2⟩

end OptimizedWebServer

/-! ## Well-formedness under disciplined use -/

/-- Replacing one connection changes the number of connections in a given state by the
difference at that connection. -/
theorem count_filter_set (l : List Connection) (i : Nat) (c c1 : Connection)
    (st : ConnectionState) (hc : l[i]? = some c) :
    ((l.set i c1).filter (fun x => decide (x.state = st))).length +
        (if c.state = st then 1 else 0) =
      (l.filter (fun x => decide (x.state = st))).length +
        (if c1.state = st then 1 else 0) := by
  induction l generalizing i with
  | nil => simp at hc
  | cons x xs ih =>
    cases i with
    | zero =>
      simp only [List.getElem?_cons_zero, Option.some.injEq] at hc
      subst hc
      simp only [List.set_cons_zero, List.filter_cons]
      by_cases h1 : x.state = st <;> by_cases h2 : c1.state = st <;> simp [h1, h2]
    | succ k =>
      simp only [List.getElem?_cons_succ] at hc
      have := ih k hc
      simp only [List.set_cons_succ, List.filter_cons]
      by_cases h1 : x.state = st
      · simp only [h1, decide_True, if_true, List.length_cons]
        omega
      · simp only [h1, decide_False, Bool.false_eq_true, if_false]
        omega

theorem well_formed_new (n : Nat) (clock : Nat → Nat) : well_formed (new n clock) := by
  refine ⟨queue_idle_new n clock, two_state_new n clock, ?_, ?_⟩
  · intro id hid
    rcases state_of_eq_some hid with ⟨h0, c, hc, _⟩
    have hlt : id.toNat < (new n clock).connection_pool.length :=
      (List.getElem?_eq_some.mp hc).1
    rw [length_new] at hlt
    rw [new_eq]
    simp only [List.mem_map, List.mem_range]
    exact ⟨id.toNat, hlt, Int.toNat_of_nonneg h0⟩
  · have hzero : count_state (new n clock) ACTIVE = 0 := by
      unfold count_state
      rw [List.length_eq_zero, List.filter_eq_nil_iff]
      intro c hc
      rw [new_eq] at hc
      simp only [List.mem_map, List.mem_range] at hc
      rcases hc with ⟨i, _, rfl⟩
      simp
    rw [hzero, length_new, new_eq]
    simp

/-- Under `well_formed`, `get_connection` returns, hands out an id that was `IDLE` (or
`-1`), and keeps `well_formed`. -/
theorem get_connection_well_formed (now : Nat) (p : ConnectionPooledServer)
    (h : well_formed p) :
    ∃ r p1, get_connection now p = some (r, p1) ∧ well_formed p1 ∧
      p1.connection_pool.length = p.connection_pool.length ∧
      state_of p r ≠ some ACTIVE := by
  rcases h with ⟨hqi, hts, hmem, hlen⟩
  cases hq : p.available_connections with
  | nil =>
    refine ⟨-1, p, get_connection_nil now p hq, ⟨hqi, hts, hmem, hlen⟩, rfl, ?_⟩
    simp [state_of]
  | cons id rest =>
    rcases get_connection_queue_idle now p id rest hqi hq with ⟨c, h0, hc, hcs, hget, hqi1⟩
    have hlt : id.toNat < p.connection_pool.length := (List.getElem?_eq_some.mp hc).1
    have hidle : state_of p id = some IDLE := by
      rw [state_of_of_getElem? h0 hc, hcs]
    refine ⟨id, _, hget, ⟨hqi1, ?_, ?_, ?_⟩, by simp [List.length_set], ?_⟩
    · intro d hd
      rcases List.mem_or_eq_of_mem_set hd with hd | hd
      · exact hts d hd
      · subst hd
        exact Or.inr rfl
    · intro j hj
      have hj0 := (state_of_eq_some hj).1
      by_cases hji : j = id
      · subst hji
        have hact := state_of_set_self p.connection_pool rest j.toNat
          { c with state := ACTIVE, last_activity := now } hlt
        rw [Int.toNat_of_nonneg h0] at hact
        rw [hact] at hj
        cases hj
      · have hne : j ≠ ((id.toNat : Nat) : Int) := by
          rw [Int.toNat_of_nonneg h0]
          exact hji
        rw [state_of_set_ne p.connection_pool p.available_connections rest id.toNat _ j hj0 hne]
          at hj
        have := hmem j hj
        rw [hq] at this
        rcases List.mem_cons.mp this with e | e
        · exact absurd e hji
        · exact e
    · have hcount := count_filter_set p.connection_pool id.toNat c
        { c with state := ACTIVE, last_activity := now } ACTIVE hc
      simp only [hcs, if_true] at hcount
      have hne : ¬ (IDLE = ACTIVE) := by decide
      simp only [hne, if_false] at hcount
      unfold count_state at hlen ⊢
      rw [hq] at hlen
      simp only [List.length_cons, List.length_set] at hlen ⊢
      omega
    · rw [hidle]
      decide

/-- Under `well_formed`, releasing an `ACTIVE` id keeps `well_formed`. -/
theorem return_connection_well_formed (p : ConnectionPooledServer) (id : Int)
    (h : well_formed p) (hact : state_of p id = some ACTIVE) :
    well_formed (return_connection p id) ∧
      (return_connection p id).connection_pool.length = p.connection_pool.length := by
  rcases h with ⟨hqi, hts, hmem, hlen⟩
  rcases return_connection_queue_idle p id hqi hact with ⟨hqi1, hlen1⟩
  rcases state_of_eq_some hact with ⟨h0, c, hc, hcs⟩
  have hlt : id.toNat < p.connection_pool.length := (List.getElem?_eq_some.mp hc).1
  refine ⟨⟨hqi1, ?_, ?_, ?_⟩, hlen1⟩
  · rw [return_connection_in_range p id c h0 hc]
    intro d hd
    rcases List.mem_or_eq_of_mem_set hd with hd | hd
    · exact hts d hd
    · subst hd
      exact Or.inl rfl
  · rw [return_connection_in_range p id c h0 hc]
    intro j hj
    simp only [List.mem_append, List.mem_singleton]
    by_cases hji : j = id
    · exact Or.inr hji
    · left
      have hj0 := (state_of_eq_some hj).1
      have hne : j ≠ ((id.toNat : Nat) : Int) := by
        rw [Int.toNat_of_nonneg h0]
        exact hji
      rw [state_of_set_ne p.connection_pool p.available_connections _ id.toNat _ j hj0 hne] at hj
      exact hmem j hj
  · rw [return_connection_in_range p id c h0 hc]
    have hcount := count_filter_set p.connection_pool id.toNat c { c with state := IDLE } ACTIVE hc
    simp only [hcs, if_true] at hcount
    have hne : ¬ (IDLE = ACTIVE) := by decide
    simp only [hne, if_false] at hcount
    unfold count_state at hlen ⊢
    simp only [List.length_append, List.length_cons, List.length_nil, List.length_set] at hlen ⊢
    omega

/-- A disciplined sequence of calls on a well-formed pool runs to a well-formed pool. -/
theorem run_disciplined_well_formed (calls : List Call) :
    ∀ p : ConnectionPooledServer, well_formed p → disciplined p calls = true →
      ∃ p1, run p calls = some p1 ∧ well_formed p1 ∧
        p1.connection_pool.length = p.connection_pool.length := by
  induction calls with
  | nil =>
    intro p h _
    exact ⟨p, rfl, h, rfl⟩
  | cons call rest ih =>
    intro p h hd
    cases call with
    | acquire now =>
      rcases get_connection_well_formed now p h with ⟨r, p1, hget, h1, hlen1, _⟩
      simp only [disciplined, hget] at hd
      rcases ih p1 h1 hd with ⟨p2, hrun, h2, hlen2⟩
      refine ⟨p2, ?_, h2, hlen2.trans hlen1⟩
      simp only [run, hget]
      exact hrun
    | release id =>
      simp only [disciplined, Bool.and_eq_true, decide_eq_true_eq] at hd
      rcases return_connection_well_formed p id h hd.1 with ⟨h1, hlen1⟩
      rcases ih _ h1 hd.2 with ⟨p2, hrun, h2, hlen2⟩
      refine ⟨p2, ?_, h2, hlen2.trans hlen1⟩
      simp only [run]
      exact hrun

/-! ## Mutual exclusion of the worker threads -/

theorem getElem?_set_cases (ws : List Worker) (t t2 : Nat) (w1 w2 : Worker)
    (h : (ws.set t w1)[t2]? = some w2) :
    (t2 = t ∧ w2 = w1) ∨ (t2 ≠ t ∧ ws[t2]? = some w2) := by
  rw [List.getElem?_set] at h
  by_cases ht : t = t2
  · left
    subst ht
    by_cases hlt : t < ws.length
    · simp only [if_true, hlt, Option.some.injEq] at h
      exact ⟨rfl, h.symm⟩
    · simp [hlt] at h
  · right
    simp only [ht, if_false] at h
    exact ⟨fun e => ht e.symm, h⟩

/-- Mutual exclusion after one worker and the pool have changed. -/
theorem exclusive_update (l : Load) (t : Nat) (w1 : Worker) (p1 : ConnectionPooledServer)
    (st1 : WebServer.Stats) (a1 : List Int) (h : l.exclusive) (hq : queue_idle p1)
    (hkeep : ∀ (t2 : Nat) (w2 : Worker) (c : Int), t2 ≠ t → l.threads[t2]? = some w2 →
      w2.pc = Pc.holding c → state_of p1 c = some ACTIVE)
    (hnew : ∀ c : Int, w1.pc = Pc.holding c → state_of p1 c = some ACTIVE ∧
      ∀ (t2 : Nat) (w2 : Worker), t2 ≠ t → l.threads[t2]? = some w2 → w2.pc ≠ Pc.holding c) :
    Load.exclusive { pool := p1, stats := st1, requests_per_thread := l.requests_per_thread,
                     threads := l.threads.set t w1, acquired := a1 } := by
  rcases h with ⟨_, _, hdist⟩
  refine ⟨hq, ?_, ?_⟩
  · intro t2 w2 c hw2 hpc
    rcases getElem?_set_cases l.threads t t2 w1 w2 hw2 with ⟨_, e⟩ | ⟨hne, hold⟩
    · subst e
      exact (hnew c hpc).1
    · exact hkeep t2 w2 c hne hold hpc
  · intro ta tb wa wb c hwa hwb hpa hpb
    rcases getElem?_set_cases l.threads t ta w1 wa hwa with ⟨ea, ewa⟩ | ⟨hnea, holda⟩
    · rcases getElem?_set_cases l.threads t tb w1 wb hwb with ⟨eb, _⟩ | ⟨hneb, holdb⟩
      · rw [ea, eb]
      · subst ewa
        exact absurd hpb ((hnew c hpa).2 tb wb hneb holdb)
    · rcases getElem?_set_cases l.threads t tb w1 wb hwb with ⟨_, ewb⟩ | ⟨_, holdb⟩
      · subst ewb
        exact absurd hpa ((hnew c hpb).2 ta wa hnea holda)
      · exact hdist ta tb wa wb c holda holdb hpa hpb

/-- Every step of every thread is defined and keeps mutual exclusion. -/
theorem step_exclusive (l : Load) (tk : Tick) (h : l.exclusive) :
    ∃ l1, step l tk = some l1 ∧ l1.exclusive := by
  have h0 := h
  rcases h with ⟨hqi, hact, hdist⟩
  cases hw : l.threads[tk.thread]? with
  | none => exact ⟨l, by simp only [step, hw], h0⟩
  | some w =>
    rcases w with ⟨i, pc⟩
    cases pc with
    | loop_head =>
      by_cases htest : (i : Int) < l.requests_per_thread
      · refine ⟨_, ?_, exclusive_update l tk.thread ⟨i, Pc.counted⟩ l.pool
          { l.stats with total_requests := l.stats.total_requests + 1 } l.acquired h0 hqi
          (fun t2 w2 c _ hw2 hpc => hact t2 w2 c hw2 hpc) ?_⟩
        · simp only [step, hw, thread_step, htest, if_true]
        · intro c hc
          cases hc
      · refine ⟨_, ?_, exclusive_update l tk.thread ⟨i, Pc.loop_head⟩ l.pool l.stats
          l.acquired h0 hqi (fun t2 w2 c _ hw2 hpc => hact t2 w2 c hw2 hpc) ?_⟩
        · simp only [step, hw, thread_step, htest, if_false]
        · intro c hc
          cases hc
    | counted =>
      cases hq : l.pool.available_connections with
      | nil =>
        have hget := get_connection_nil tk.now l.pool hq
        refine ⟨_, ?_, exclusive_update l tk.thread ⟨i, Pc.timing⟩ l.pool l.stats
          (l.acquired ++ [-1]) h0 hqi (fun t2 w2 c _ hw2 hpc => hact t2 w2 c hw2 hpc) ?_⟩
        · simp only [step, hw, thread_step, hget]
          rfl
        · intro c hc
          cases hc
      | cons id rest =>
        rcases get_connection_queue_idle tk.now l.pool id rest hqi hq with
          ⟨c, h0id, hc, hcs, hget, hqi1⟩
        have hlt : id.toNat < l.pool.connection_pool.length := (List.getElem?_eq_some.mp hc).1
        have hidle : state_of l.pool id = some IDLE := by
          rw [state_of_of_getElem? h0id hc, hcs]
        refine ⟨_, ?_, exclusive_update l tk.thread ⟨i, Pc.holding id⟩ _ l.stats
          (l.acquired ++ [id]) h0 hqi1 ?_ ?_⟩
        · simp only [step, hw, thread_step, hget, h0id, if_true]
        · intro t2 w2 c2 _ hw2 hpc
          have hact2 := hact t2 w2 c2 hw2 hpc
          have hc20 := (state_of_eq_some hact2).1
          have hne : c2 ≠ ((id.toNat : Nat) : Int) := by
            rw [Int.toNat_of_nonneg h0id]
            intro e
            rw [e, hidle] at hact2
            cases hact2
          rw [state_of_set_ne l.pool.connection_pool l.pool.available_connections rest
            id.toNat _ c2 hc20 hne]
          exact hact2
        · intro c2 hc2
          simp only [Pc.holding.injEq] at hc2
          subst hc2
          constructor
          · have := state_of_set_self l.pool.connection_pool rest id.toNat
              { c with state := ACTIVE, last_activity := tk.now } hlt
            rw [Int.toNat_of_nonneg h0id] at this
            exact this
          · intro t2 w2 _ hw2 hpc
            have hact2 := hact t2 w2 id hw2 hpc
            rw [hidle] at hact2
            cases hact2
    | holding c =>
      have hcact := hact tk.thread ⟨i, Pc.holding c⟩ c hw rfl
      rcases state_of_eq_some hcact with ⟨hc0, cc, hcc, _⟩
      have hqi1 := (return_connection_queue_idle l.pool c hqi hcact).1
      refine ⟨_, ?_, exclusive_update l tk.thread ⟨i, Pc.timing⟩
        (return_connection (process_with_connection l.pool c) c) l.stats l.acquired h0 hqi1
        ?_ ?_⟩
      · simp only [step, hw, thread_step]
      · intro t2 w2 c2 hne2 hw2 hpc
        have hact2 := hact t2 w2 c2 hw2 hpc
        have hc20 := (state_of_eq_some hact2).1
        have hcne : c2 ≠ c := by
          intro e
          subst e
          exact hne2 (hdist t2 tk.thread w2 ⟨i, Pc.holding c2⟩ c2 hw2 hw hpc rfl)
        have hne : c2 ≠ ((c.toNat : Nat) : Int) := by
          rw [Int.toNat_of_nonneg hc0]
          exact hcne
        show state_of (return_connection l.pool c) c2 = some ACTIVE
        rw [return_connection_in_range l.pool c cc hc0 hcc,
          state_of_set_ne l.pool.connection_pool l.pool.available_connections _ c.toNat _ c2
            hc20 hne]
        exact hact2
      · intro c2 hc2
        cases hc2
    | timing =>
      refine ⟨_, ?_, exclusive_update l tk.thread ⟨i + 1, Pc.loop_head⟩ l.pool
        { l.stats with total_response_time_ms := l.stats.total_response_time_ms + tk.duration }
        l.acquired h0 hqi (fun t2 w2 c _ hw2 hpc => hact t2 w2 c hw2 hpc) ?_⟩
      · simp only [step, hw, thread_step]
      · intro c hc
        cases hc

/-- Every schedule runs without undefined behaviour and keeps mutual exclusion. -/
theorem run_schedule_exclusive (schedule : List Tick) :
    ∀ l : Load, l.exclusive → ∃ l1, run_schedule l schedule = some l1 ∧ l1.exclusive := by
  induction schedule with
  | nil =>
    intro l h
    exact ⟨l, rfl, h⟩
  | cons tk rest ih =>
    intro l h
    rcases step_exclusive l tk h with ⟨l1, hstep, h1⟩
    rcases ih l1 h1 with ⟨l2, hrun, h2⟩
    exact ⟨l2, by simp only [run_schedule, hstep]; exact hrun, h2⟩

theorem exclusive_start_load (request_count thread_count : Int) (p : ConnectionPooledServer)
    (st : WebServer.Stats) (hq : queue_idle p) :
    (start_load request_count thread_count p st).exclusive := by
  have hpc : ∀ (t : Nat) (w : Worker),
      (start_load request_count thread_count p st).threads[t]? = some w →
        w.pc = Pc.loop_head := by
    intro t w hw
    have hmem := List.getElem?_mem hw
    simp only [start_load, List.mem_replicate] at hmem
    rw [hmem.2]
  refine ⟨hq, ?_, ?_⟩
  · intro t w c hw hc
    rw [hpc t w hw] at hc
    cases hc
  · intro t1 t2 w1 w2 c hw1 _ hc1 _
    rw [hpc t1 w1 hw1] at hc1
    cases hc1

/-! ## Order of the hand-out -/

/-- On a pool whose queued ids index the vector, `get_connection` returns the front id and
leaves the rest of the queue. -/
theorem get_connection_front (now : Nat) (p : ConnectionPooledServer) (id : Int)
    (rest : List Int) (h : queue_in_range p) (hq : p.available_connections = id :: rest) :
    ∃ p1, get_connection now p = some (id, p1) ∧ p1.available_connections = rest ∧
      queue_in_range p1 := by
  have hid := h id (by rw [hq]; exact List.mem_cons_self _ _)
  rcases getElem?_of_in_range hid with ⟨c, hc⟩
  refine ⟨_, get_connection_cons now p id rest c hq hid.1 hc, rfl, ?_⟩
  intro j hj
  have := h j (by rw [hq]; exact List.mem_cons_of_mem _ hj)
  simpa [List.length_set] using this

/-- A run of `acquire` calls returns the queued ids from the front, in the order of the
queue, and `-1` once the queue is used up. -/
theorem run_trace_acquires (nows : List Nat) :
    ∀ p : ConnectionPooledServer, queue_in_range p →
      ∃ p1, run_trace p (nows.map Call.acquire) =
          some (p.available_connections.take nows.length ++
            List.replicate (nows.length - p.available_connections.length) (-1), p1) ∧
        p1.available_connections = p.available_connections.drop nows.length := by
  induction nows with
  | nil =>
    intro p _
    exact ⟨p, by simp [run_trace], by simp⟩
  | cons now rest ih =>
    intro p h
    cases hq : p.available_connections with
    | nil =>
      rcases ih p h with ⟨p1, hrun, hqueue⟩
      rw [hq] at hrun hqueue
      refine ⟨p1, ?_, by simpa using hqueue⟩
      simp only [List.map_cons, run_trace, get_connection_nil now p hq, hrun]
      simp [List.replicate_succ]
    | cons id q =>
      rcases get_connection_front now p id q h hq with ⟨p1, hget, hq1, h1⟩
      rcases ih p1 h1 with ⟨p2, hrun, hqueue⟩
      rw [hq1] at hrun hqueue
      refine ⟨p2, ?_, by simpa using hqueue⟩
      simp only [List.map_cons, run_trace, hget, hrun]
      simp

/-- In a joined state every worker has made exactly `requests_per_thread` requests. -/
theorem joined_worker_requests (l : Load) (h : l.inv) (hj : joined l = true) :
    ∀ w ∈ l.threads, w.i = l.requests_per_thread.toNat := by
  rcases h with ⟨_, hws, _⟩
  rw [joined, List.all_eq_true] at hj
  intro w hw
  have h1 := hj w hw
  have h2 : w.i ≤ l.requests_per_thread.toNat := (hws w hw).1
  simp only [Bool.and_eq_true, decide_eq_true_eq, Bool.not_eq_true', decide_eq_false_iff_not]
    at h1
  omega

/-! ## The claims about initialization, lookups and resets -/

/-- C21: cache initialization is idempotent. `initialize_cache` on a server whose flag is
set changes neither the mapping nor the flag; a second `initialize_cache` after a first
changes nothing; and on the constructed server every sequence of later calls (more
`initialize_cache` calls, lookups, `handle_request`, `run_load_test`) returns and leaves
the mapping and the flag as constructed. -/
theorem initialize_cache_once (c : List (String × CachedResponse)) (s : OptimizedWebServer)
    (fuel : Nat) (ops : List OptimizedWebServer.Op) (st : WebServer.Stats) :
    OptimizedWebServer.initialize_cache { response_cache := c, cache_initialized := true } =
        { response_cache := c, cache_initialized := true } ∧
      OptimizedWebServer.initialize_cache (OptimizedWebServer.initialize_cache s) =
        OptimizedWebServer.initialize_cache s ∧
      (OptimizedWebServer.initialize_cache s).cache_initialized = true ∧
      ∃ st1, OptimizedWebServer.apply_ops (fuel + 2) ops (OptimizedWebServer.new, st) =
        some (OptimizedWebServer.new, st1) :=
  ⟨OptimizedWebServer.initialize_cache_of_initialized c,
    OptimizedWebServer.initialize_cache_idempotent s,
    OptimizedWebServer.initialize_cache_flag s,
    OptimizedWebServer.apply_ops_new fuel ops st⟩

/-- C22: a lookup is free of side effects except for the hit and miss counters. Whatever
the server, the recursion bound and the path (known or unknown), a lookup that returns
leaves the object, hence its mapping and key set, and the counters `total_requests`,
`total_allocations` and `total_response_time_ms` unchanged; and on the constructed server
every lookup returns. -/
theorem lookup_side_effects (s : OptimizedWebServer) (fuel : Nat) (path : String)
    (st : WebServer.Stats) :
    (∀ r, OptimizedWebServer.apply_op fuel (OptimizedWebServer.Op.lookup path) (s, st) = some r →
        r.1 = s ∧
        (∀ key, OptimizedWebServer.find r.1.response_cache key =
          OptimizedWebServer.find s.response_cache key) ∧
        r.2.total_requests = st.total_requests ∧
        r.2.total_allocations = st.total_allocations ∧
        r.2.total_response_time_ms = st.total_response_time_ms) ∧
      ∃ r, OptimizedWebServer.apply_op (fuel + 2) (OptimizedWebServer.Op.lookup path)
          (OptimizedWebServer.new, st) = some r ∧
        r.1 = OptimizedWebServer.new ∧
        r.2.total_requests = st.total_requests ∧
        r.2.total_allocations = st.total_allocations ∧
        r.2.total_response_time_ms = st.total_response_time_ms := by
  constructor
  · intro r hr
    cases hsend : OptimizedWebServer.send_cached_response s fuel path st with
    | none => simp [OptimizedWebServer.apply_op, hsend] at hr
    | some x =>
      rcases x with ⟨e, st1⟩
      simp only [OptimizedWebServer.apply_op, hsend, Option.some.injEq] at hr
      subst hr
      have hf := OptimizedWebServer.send_cached_response_frame s fuel path st e st1 hsend
      exact ⟨rfl, fun _ => rfl, hf.1, hf.2.1, hf.2.2⟩
  · rcases OptimizedWebServer.send_cached_response_new_returns fuel path st with ⟨e, st1, hsend⟩
    have hf := OptimizedWebServer.send_cached_response_frame _ _ path st e st1 hsend
    exact ⟨(OptimizedWebServer.new, st1), by simp only [OptimizedWebServer.apply_op, hsend],
      rfl, hf.1, hf.2.1, hf.2.2⟩

/-- C23: lookups are deterministic. On the initialized cache a lookup of a path resolves to
an entry, and every other lookup of the same path, whatever the counter values and the
recursion bound, resolves to the same entry: the same status header, content type and
body. -/
theorem lookup_deterministic (fuel1 fuel2 : Nat) (path : String) (st1 : WebServer.Stats) :
    ∃ e sa, OptimizedWebServer.send_cached_response OptimizedWebServer.new (fuel1 + 2) path st1 =
        some (e, sa) ∧
      (∃ sb, OptimizedWebServer.send_cached_response OptimizedWebServer.new (fuel2 + 2) path sa =
        some (e, sb)) ∧
      ∀ st2 : WebServer.Stats, ∃ sb e2,
        OptimizedWebServer.send_cached_response OptimizedWebServer.new (fuel2 + 2) path st2 =
          some (e2, sb) ∧
        e2.header = e.header ∧ e2.content_type = e.content_type ∧ e2.body = e.body := by
  cases hfind : OptimizedWebServer.find OptimizedWebServer.new.response_cache path with
  | some entry =>
    exact ⟨entry, _,
      OptimizedWebServer.send_cached_response_known _ (fuel1 + 1) path st1 entry hfind,
      ⟨_, OptimizedWebServer.send_cached_response_known _ (fuel2 + 1) path _ entry hfind⟩,
      fun st2 => ⟨_, entry,
        OptimizedWebServer.send_cached_response_known _ (fuel2 + 1) path st2 entry hfind,
        rfl, rfl, rfl⟩⟩
  | none =>
    exact ⟨_, _,
      OptimizedWebServer.send_cached_response_unknown _ fuel1 path st1 _
        OptimizedWebServer.find_new_fallback hfind,
      ⟨_, OptimizedWebServer.send_cached_response_unknown _ fuel2 path _ _
        OptimizedWebServer.find_new_fallback hfind⟩,
      fun st2 => ⟨_, _,
        OptimizedWebServer.send_cached_response_unknown _ fuel2 path st2 _
          OptimizedWebServer.find_new_fallback hfind,
        rfl, rfl, rfl⟩⟩

/-- C24: `reset_stats` sets the five counters to 0, and both kinds of run begin with it:
the result of `run_load_test` and of `handle_concurrent_requests` is the same for any two
values of the counters before the run. Both runs return (the load test on the constructed
server, the concurrent run under some schedule). -/
theorem counters_reset_at_run_start (st st2 : WebServer.Stats) (s : OptimizedWebServer)
    (fuel : Nat) (request_count thread_count : Int) (durations : Nat → Nat)
    (schedule : List Tick) (p : ConnectionPooledServer) (n cap w : Nat) (clock : Nat → Nat) :
    WebServer.reset_stats st =
        { total_requests := 0, total_allocations := 0, total_response_time_ms := 0,
          cache_hits := 0, cache_misses := 0 } ∧
      OptimizedWebServer.run_load_test s fuel request_count durations st =
        OptimizedWebServer.run_load_test s fuel request_count durations st2 ∧
      handle_concurrent_requests request_count thread_count schedule p st =
        handle_concurrent_requests request_count thread_count schedule p st2 ∧
      (∃ st1, OptimizedWebServer.run_load_test OptimizedWebServer.new (fuel + 2) (n : Int)
        durations st = some st1) ∧
      ∃ sched l, handle_concurrent_requests (n : Int) ((w + 1 : Nat) : Int) sched
        (new cap clock) st = some l ∧ joined l = true := by
  refine ⟨rfl, rfl, rfl, ?_, ?_⟩
  · rcases OptimizedWebServer.run_load_test_counters fuel n durations st with ⟨st1, h, _⟩
    exact ⟨st1, h⟩
  · have htc : ((w + 1 : Nat) : Int) ≠ 0 := by omega
    exact (handle_concurrent_requests_runs (n : Int) ((w + 1 : Nat) : Int) (new cap clock) st
      htc (queue_in_range_new cap clock)).1

/-! ## The claims about exclusion, well-formedness and order -/

/-- C25: under every interleaving of the worker threads of `handle_concurrent_requests`
(each step on the queue or on a connection being one section under the pool mutex), at
every moment no two workers hold the same connection id between their `get_connection` and
their `return_connection`; every held id belongs to an `ACTIVE` connection and is not in
the availability queue. -/
theorem one_holder_per_connection (cap N W : Nat) (clock : Nat → Nat) (st : WebServer.Stats)
    (schedule : List Tick) :
    ∃ l, handle_concurrent_requests (N : Int) ((W + 1 : Nat) : Int) schedule (new cap clock) st =
        some l ∧
      (∀ (t1 t2 : Nat) (w1 w2 : Worker) (c : Int),
        l.threads[t1]? = some w1 → l.threads[t2]? = some w2 →
          w1.pc = Pc.holding c → w2.pc = Pc.holding c → t1 = t2) ∧
      ∀ (t : Nat) (w : Worker) (c : Int), l.threads[t]? = some w → w.pc = Pc.holding c →
        state_of l.pool c = some ACTIVE ∧ c ∉ l.pool.available_connections := by
  have htc : ((W + 1 : Nat) : Int) ≠ 0 := by omega
  rcases run_schedule_exclusive schedule _
    (exclusive_start_load (N : Int) ((W + 1 : Nat) : Int) (new cap clock) st
      (queue_idle_new cap clock)) with ⟨l, hrun, hqi, hact, hdist⟩
  refine ⟨l, by simp only [handle_concurrent_requests, htc, if_false]; exact hrun, hdist, ?_⟩
  intro t w c hw hpc
  have hc := hact t w c hw hpc
  refine ⟨hc, ?_⟩
  intro hin
  have := hqi.2 c hin
  rw [hc] at this
  cases this

/-- C26: in every pool state reached from `construct(n)` by `acquire` calls and by
`release` calls on ids that are `ACTIVE` at the time, the availability queue contains no id
twice, its members are exactly the ids of the `IDLE` connections, its length is `n` minus
the number of `ACTIVE` connections, and `acquire` returns an id that is not `ACTIVE`. -/
theorem disciplined_pool_well_formed (n : Nat) (clock : Nat → Nat) (calls : List Call)
    (hd : disciplined (new n clock) calls = true) :
    ∃ p, run (new n clock) calls = some p ∧
      p.available_connections.Nodup ∧
      (∀ id : Int, id ∈ p.available_connections ↔ state_of p id = some IDLE) ∧
      p.available_connections.length = n - count_state p ACTIVE ∧
      ∀ now : Nat, ∃ r p1, get_connection now p = some (r, p1) ∧
        state_of p r ≠ some ACTIVE := by
  rcases run_disciplined_well_formed calls (new n clock) (well_formed_new n clock) hd with
    ⟨p, hrun, hwf, hlen⟩
  rw [length_new] at hlen
  have hwf0 := hwf
  rcases hwf with ⟨hqi, _, hmem, hcount⟩
  refine ⟨p, hrun, hqi.1, fun id => ⟨hqi.2 id, hmem id⟩, by omega, ?_⟩
  intro now
  rcases get_connection_well_formed now p hwf0 with ⟨r, p1, hget, _, _, hna⟩
  exact ⟨r, p1, hget, hna⟩

theorem disciplined_pool_well_formed_witness :
    disciplined (new 3 frozen_clock) [Call.acquire 1, Call.acquire 2, Call.release 0] = true ∧
      ∃ p, run (new 3 frozen_clock) [Call.acquire 1, Call.acquire 2, Call.release 0] = some p ∧
        p.available_connections.Nodup ∧
        (∀ id : Int, id ∈ p.available_connections ↔ state_of p id = some IDLE) ∧
        p.available_connections.length = 3 - count_state p ACTIVE ∧
        ∀ now : Nat, ∃ r p1, get_connection now p = some (r, p1) ∧
          state_of p r ≠ some ACTIVE :=
  ⟨by decide,
    disciplined_pool_well_formed 3 frozen_clock
      [Call.acquire 1, Call.acquire 2, Call.release 0] (by decide)⟩

/-- C27: on the fresh pool of capacity 2 the calls `acquire`, `release(0)`, `release(0)`,
`acquire`, `acquire`, `acquire` run as follows. After the first `release(0)` connection 0
is `IDLE`; the second `release(0)` is accepted and the id 0 is then twice in the queue; the
four `acquire` calls return 0, 1, 0, 0, and the last of them returns the id 0 while
connection 0 is `ACTIVE` and has not been released. -/
theorem double_release_duplicates_slot :
    run (new 2 frozen_clock) [Call.acquire 1, Call.release 0] =
        some { connection_pool := [⟨0, IDLE, 1⟩, ⟨1, IDLE, 0⟩], available_connections := [1, 0] } ∧
      return_connection
          { connection_pool := [⟨0, IDLE, 1⟩, ⟨1, IDLE, 0⟩], available_connections := [1, 0] } 0 =
        { connection_pool := [⟨0, IDLE, 1⟩, ⟨1, IDLE, 0⟩], available_connections := [1, 0, 0] } ∧
      List.count (0 : Int) [1, 0, 0] = 2 ∧
      run (new 2 frozen_clock)
          [Call.acquire 1, Call.release 0, Call.release 0, Call.acquire 2, Call.acquire 3] =
        some { connection_pool := [⟨0, ACTIVE, 3⟩, ⟨1, ACTIVE, 2⟩],
               available_connections := [0] } ∧
      state_of { connection_pool := [⟨0, ACTIVE, 3⟩, ⟨1, ACTIVE, 2⟩],
                 available_connections := [0] } 0 = some ACTIVE ∧
      get_connection 4 { connection_pool := [⟨0, ACTIVE, 3⟩, ⟨1, ACTIVE, 2⟩],
                         available_connections := [0] } =
        some (0, { connection_pool := [⟨0, ACTIVE, 4⟩, ⟨1, ACTIVE, 2⟩],
                   available_connections := [] }) ∧
      run_trace (new 2 frozen_clock)
          [Call.acquire 1, Call.release 0, Call.release 0, Call.acquire 2, Call.acquire 3,
            Call.acquire 4] =
        some ([0, 1, 0, 0], { connection_pool := [⟨0, ACTIVE, 4⟩, ⟨1, ACTIVE, 2⟩],
                              available_connections := [] }) := by
  decide

/-- C28: for every `N >= 0` the call `run_load_test(N)` on the constructed server returns
with `total_requests == N`, `cache_misses == N / 5` (rounded down) and `cache_hits == N`.
Request `i` uses the test path number `i mod 5`; the fifth path is no key of the cache. -/
theorem load_test_counters (fuel N : Nat) (durations : Nat → Nat) (st : WebServer.Stats) :
    (∃ st1, OptimizedWebServer.run_load_test OptimizedWebServer.new (fuel + 2) (N : Int)
          durations st = some st1 ∧
        st1.total_requests = N ∧ st1.cache_misses = N / 5 ∧ st1.cache_hits = N) ∧
      (∀ i : Nat, (OptimizedWebServer.load_test_request durations i).1 =
        OptimizedWebServer.test_paths.getD (i % 5) "") ∧
      OptimizedWebServer.test_paths.getD 4 "" = "/nonexistent" ∧
      OptimizedWebServer.find OptimizedWebServer.new.response_cache "/nonexistent" = none := by
  refine ⟨?_, fun _ => rfl, rfl, by decide⟩
  rcases OptimizedWebServer.run_load_test_counters fuel N durations st with ⟨st1, h, ht, hh, hm⟩
  exact ⟨st1, h, ht, hm, hh⟩

/-- C29: for every `request_count >= 0` and `thread_count >= 1` some schedule lets
`handle_concurrent_requests` return; under every schedule `requests_per_thread` is the
integer quotient, and when the call returns every worker has made that many requests and
`total_requests` is `thread_count * (request_count / thread_count)`, which is
`request_count - request_count mod thread_count` and equals `request_count` exactly when
`thread_count` divides `request_count`. -/
theorem truncating_partition (cap N W : Nat) (clock : Nat → Nat) (st : WebServer.Stats) :
    (∃ schedule l,
        handle_concurrent_requests (N : Int) ((W + 1 : Nat) : Int) schedule (new cap clock) st =
          some l ∧ joined l = true) ∧
      ∀ schedule, ∃ l,
        handle_concurrent_requests (N : Int) ((W + 1 : Nat) : Int) schedule (new cap clock) st =
          some l ∧
        l.requests_per_thread = ((N / (W + 1) : Nat) : Int) ∧
        l.threads.length = W + 1 ∧
        (joined l = true →
          (∀ w ∈ l.threads, w.i = N / (W + 1)) ∧
          l.stats.total_requests = (W + 1) * (N / (W + 1)) ∧
          l.stats.total_requests = N - N % (W + 1) ∧
          (l.stats.total_requests = N ↔ (W + 1) ∣ N)) := by
  have htc : ((W + 1 : Nat) : Int) ≠ 0 := by omega
  rcases handle_concurrent_requests_runs (N : Int) ((W + 1 : Nat) : Int) (new cap clock) st htc
    (queue_in_range_new cap clock) with ⟨hex, hall⟩
  refine ⟨hex, ?_⟩
  intro schedule
  rcases hall schedule with ⟨l, hrun, hinv, hr, hlen⟩
  have hr1 : l.requests_per_thread = ((N / (W + 1) : Nat) : Int) := by
    rw [hr, Int.ofNat_tdiv]
  have hlen1 : l.threads.length = W + 1 := by
    rw [hlen, Int.toNat_ofNat]
  have hrt : l.requests_per_thread.toNat = N / (W + 1) := by
    rw [hr1, Int.toNat_ofNat]
  refine ⟨l, hrun, hr1, hlen1, ?_⟩
  intro hj
  have htot : l.stats.total_requests = (W + 1) * (N / (W + 1)) := by
    rw [(joined_counts l hinv hj).1, hlen1, hrt]
  have hdm := Nat.div_add_mod N (W + 1)
  refine ⟨?_, htot, ?_, ?_⟩
  · intro w hw
    rw [joined_worker_requests l hinv hj w hw, hrt]
  · rw [htot]
    omega
  · rw [htot, Nat.dvd_iff_mod_eq_zero]
    constructor
    · intro h
      omega
    · intro h
      omega

/-- The values returned by `m` consecutive `acquire` calls on a queue `0, 1, ..., n-1`. -/
theorem hand_out_values (n m : Nat) :
    (∀ k, k < n → k < m →
      (((List.range n).map (fun (i : Nat) => (i : Int))).take m ++
        List.replicate (m - n) (-1))[k]? = some (k : Int)) ∧
      ∀ k, n ≤ k → k < m →
        (((List.range n).map (fun (i : Nat) => (i : Int))).take m ++
          List.replicate (m - n) (-1))[k]? = some (-1) := by
  constructor
  · intro k hkn hkm
    have hlen : k < (((List.range n).map (fun (i : Nat) => (i : Int))).take m).length := by
      simp only [List.length_take, List.length_map, List.length_range]
      omega
    rw [List.getElem?_append_left hlen, List.getElem?_take_of_lt hkm, List.getElem?_map,
      List.getElem?_range hkn]
    rfl
  · intro k hnk hkm
    have hlen : (((List.range n).map (fun (i : Nat) => (i : Int))).take m).length = n := by
      simp only [List.length_take, List.length_map, List.length_range]
      omega
    rw [List.getElem?_append_right (by omega), hlen, List.getElem?_replicate]
    have : k - n < m - n := by omega
    simp [this]

/-- C30: on a freshly constructed pool of capacity `n`, consecutive `get_connection` calls
without a release in between return the ids `0, 1, ..., n-1` in this order (the `k`-th
call returns `k-1`) and every further call returns `-1`. In general, in every state reached
from construction, `get_connection` returns the id at the front of the queue (`-1` if the
queue is empty) and leaves the rest, and `return_connection` of a valid id appends it at the
back: ids are handed out in the order in which they were queued. -/
theorem fifo_hand_out (n : Nat) (clock : Nat → Nat) (nows : List Nat) (calls : List Call)
    (now : Nat) (id : Int) :
    (∃ p1, run_trace (new n clock) (nows.map Call.acquire) =
        some (((List.range n).map (fun (i : Nat) => (i : Int))).take nows.length ++
          List.replicate (nows.length - n) (-1), p1)) ∧
      (∀ k, k < n → k < nows.length →
        (((List.range n).map (fun (i : Nat) => (i : Int))).take nows.length ++
          List.replicate (nows.length - n) (-1))[k]? = some (k : Int)) ∧
      (∀ k, n ≤ k → k < nows.length →
        (((List.range n).map (fun (i : Nat) => (i : Int))).take nows.length ++
          List.replicate (nows.length - n) (-1))[k]? = some (-1)) ∧
      ∃ p, run (new n clock) calls = some p ∧
        (∃ p2, get_connection now p = some (p.available_connections.headD (-1), p2) ∧
          p2.available_connections = p.available_connections.tail) ∧
        (return_connection p id).available_connections =
          if 0 ≤ id ∧ id < (n : Int) then p.available_connections ++ [id]
          else p.available_connections := by
  refine ⟨?_, (hand_out_values n nows.length).1, (hand_out_values n nows.length).2, ?_⟩
  · rcases run_trace_acquires nows (new n clock) (queue_in_range_new n clock) with
      ⟨p1, hrun, _⟩
    have hq : (new n clock).available_connections =
        (List.range n).map (fun (i : Nat) => (i : Int)) := by rw [new_eq]
    rw [hq] at hrun
    simp only [List.length_map, List.length_range] at hrun
    exact ⟨p1, hrun⟩
  · rcases run_defined calls (new n clock) (queue_in_range_new n clock)
      (two_state_new n clock) with ⟨p, hrun, hq, _, hlen⟩
    rw [length_new] at hlen
    refine ⟨p, hrun, ?_, ?_⟩
    · cases hqueue : p.available_connections with
      | nil => exact ⟨p, get_connection_nil now p hqueue, hqueue⟩
      | cons front rest =>
        rcases get_connection_front now p front rest hq hqueue with ⟨p2, hget, hrest, _⟩
        exact ⟨p2, hget, hrest⟩
    · by_cases hg : 0 ≤ id ∧ id < (n : Int)
      · have hg1 : 0 ≤ id ∧ id < (p.connection_pool.length : Int) := by
          rw [hlen]
          exact hg
        rcases getElem?_of_in_range hg1 with ⟨c, hc⟩
        rw [return_connection_in_range p id c hg1.1 hc, if_pos hg]
      · have hg1 : ¬ (0 ≤ id ∧ id < (p.connection_pool.length : Int)) := by
          rw [hlen]
          exact hg
        rw [return_connection_out_of_range p id hg1, if_neg hg]
